import Mathlib

/-!
# heka-config-manager: the CMFilter plugin (`config_manager_filter.go`)

A shallow embedding of the configuration-manager filter and theorems about its
path-safety check, its add / delete / return operations and its dispatcher.

Modelling conventions

* Go strings and byte slices are `Str`, lists of characters.
* The receiver `f *CMFilter` is passed explicitly and returned; the record
  `CMFilter` also carries the part of the outside world the methods touch:
  the filesystem, the stream of random bytes, the values sent on `batchChan`,
  whether `Globals.ShutDown` was called and whether the process has panicked.
* Library code the plugin calls (TOML decoding, the plugin-maker registry,
  environment substitution, `fmt.Sprintf` of a bare format) is taken as a
  parameter, the record `Externals`. `NewPluginMaker` may return a nil maker;
  `getConfigFileInfo` drops the error and calls a method of the maker, which
  panics on nil. A panic ends the run: the result `Run.panic` carries the
  filter as it was at that moment and the dispatcher handles no more requests.
* The filesystem is a finite table from keys, the names on the way from the
  root, to nodes, without symbolic links or permissions. A path is looked up
  name by name, as the kernel does: every name but the last must be an
  existing directory, also in front of `..`.
* The stop channel is not modelled: every `select` takes its non-stop branch.
-/

namespace CM

/-- Go `string` and `[]byte`. -/
abbrev Str := List Char

/-! ## `strings` and `path/filepath` -/

/-- Go `strings.HasPrefix`. -/
def HasPrefix (s p : Str) : Bool := p.isPrefixOf s

/-- Go `strings.HasSuffix`. -/
def HasSuffix (s p : Str) : Bool := p.reverse.isPrefixOf s.reverse

/-- Separate a path at every slash; `"/a//b"` gives `["", "a", "", "b"]`. -/
def splitSlash : Str → List Str
  | [] => [[]]
  | c :: cs =>
    if c = '/' then [] :: splitSlash cs
    else
      match splitSlash cs with
      | [] => [[c]]
      | x :: xs => (c :: x) :: xs

/-- Go `strings.Join`. -/
def joinWith (sep : Str) : List Str → Str
  | [] => []
  | [x] => x
  | x :: y :: rest => x ++ sep ++ joinWith sep (y :: rest)

/-- One element of a path processed by `filepath.Clean`; `stack` holds the
elements kept so far, last one first. Empty and `.` elements are dropped, `..`
removes the last kept element when there is one that is not `..`, is dropped at
the root, and is kept otherwise. -/
def cleanStep (rooted : Bool) (stack : List Str) (comp : Str) : List Str :=
  if comp = [] ∨ comp = ['.'] then stack
  else if comp = ['.', '.'] then
    match stack with
    | [] => if rooted then [] else [comp]
    | top :: rest => if top = ['.', '.'] then comp :: stack else rest
  else comp :: stack

/-- Whether the path starts with a slash. -/
def isRooted (path : Str) : Bool := path.head? = some '/'

/-- Go `filepath.Clean` (Unix). -/
def Clean (path : Str) : Str :=
  let stack := (splitSlash path).foldl (cleanStep (isRooted path)) []
  if isRooted path then '/' :: joinWith ['/'] stack.reverse
  else if stack = [] then ['.'] else joinWith ['/'] stack.reverse

/-- Go `filepath.Join`: the elements from the first non-empty one on, joined by
slashes and cleaned; the empty string when every element is empty. -/
def Join (elem : List Str) : Str :=
  match elem.dropWhile (fun e => e = []) with
  | [] => []
  | rest => Clean (joinWith ['/'] rest)

/-- The part of a path up to and including its last slash. -/
def uptoLastSlash : Str → Str
  | [] => []
  | c :: cs =>
    if cs.contains '/' then c :: uptoLastSlash cs
    else if c = '/' then [c] else []

/-- Go `filepath.Dir` (Unix). -/
def Dir (path : Str) : Str := Clean (uptoLastSlash path)

/-- The last element of a cleaned path, the `Name()` of a directory entry. -/
def Base (path : Str) : Str := ((splitSlash path).getLast?).getD []

/-- Byte-wise order on strings, the order of `sort.Strings`. -/
def strLe : Str → Str → Bool
  | [], _ => true
  | _ :: _, [] => false
  | a :: as, b :: bs => if a = b then strLe as bs else decide (a.toNat < b.toNat)

/-- Insertion into a list sorted by `strLe`. -/
def insertSorted (x : Str) : List Str → List Str
  | [] => [x]
  | y :: ys => if strLe x y then x :: y :: ys else y :: insertSorted x ys

/-- Sort names as `ioutil.ReadDir` does. -/
def sortNames (l : List Str) : List Str := l.foldr insertSorted []

/-- Decimal rendering of an `int`, as `fmt.Sprint` and `strconv.Itoa`. -/
def Itoa (n : Int) : Str :=
  if n < 0 then '-' :: Nat.toDigits 10 n.natAbs else Nat.toDigits 10 n.natAbs

/-- One lower-case hexadecimal digit. -/
def hexDigit (n : Nat) : Char := Nat.digitChar (n % 16)

/-- Go `hex.EncodeToString`. -/
def hexEncode : List Nat → Str
  | [] => []
  | b :: bs => hexDigit (b % 256 / 16) :: hexDigit (b % 256) :: hexEncode bs

/-- Go `strconv.ParseBool`, with the value it returns together with an error
being `false`. -/
def ParseBool (s : Str) : Bool :=
  s ∈ ["1".toList, "t".toList, "T".toList, "TRUE".toList, "true".toList, "True".toList]

/-! ## The filesystem -/

/-- A filesystem node: a regular file with its bytes, or a directory. -/
inductive Node where
  | file (data : Str)
  | dir
  deriving DecidableEq, Repr

/-- The key of a filesystem entry: the names on the way from the root. -/
abbrev Key := List Str

/-- The error numbers of the system calls the plugin makes. -/
inductive Errno where
  | ENOENT
  | ENOTDIR
  | EEXIST
  | EISDIR
  | ENOTEMPTY
  | EBUSY
  deriving DecidableEq, Repr

/-- The text of an error number. -/
def Errno.text : Errno → Str
  | Errno.ENOENT => "no such file or directory".toList
  | Errno.ENOTDIR => "not a directory".toList
  | Errno.EEXIST => "file exists".toList
  | Errno.EISDIR => "is a directory".toList
  | Errno.ENOTEMPTY => "directory not empty".toList
  | Errno.EBUSY => "device or resource busy".toList

/-- The text of a Go `*PathError`. -/
def pathError (op path : Str) (e : Errno) : Str :=
  op ++ " ".toList ++ path ++ ": ".toList ++ e.text

/-- A filesystem: the working directory, an absolute path, and a table from
keys to nodes. The root directory has the empty key. -/
structure FS where
  cwd : Str
  entries : List (Key × Node)
  deriving DecidableEq, Repr

namespace FS

/-- The node stored under a key. -/
def getKey : List (Key × Node) → Key → Option Node
  | [], _ => none
  | (k, n) :: rest, key => if k = key then some n else getKey rest key

/-- One name of a path, looked up from the entry `cur`: `cur` must be an
existing directory; an empty name and `.` stay there, `..` goes to the parent,
any other name to the entry of that name in `cur`, which need not exist. -/
def step (fs : FS) (cur : Key) (comp : Str) : Except Errno Key :=
  match getKey fs.entries cur with
  | none => Except.error Errno.ENOENT
  | some (Node.file _) => Except.error Errno.ENOTDIR
  | some Node.dir =>
    if comp = [] ∨ comp = ['.'] then Except.ok cur
    else if comp = ['.', '.'] then Except.ok cur.dropLast
    else Except.ok (cur ++ [comp])

/-- The names of a path looked up one after the other. -/
def walkFrom (fs : FS) : Key → List Str → Except Errno Key
  | cur, [] => Except.ok cur
  | cur, comp :: rest =>
    match fs.step cur comp with
    | Except.ok k => walkFrom fs k rest
    | Except.error e => Except.error e

/-- The key a path names. Every name but the last must be an existing
directory; the entry of the last name need not exist. The empty path names
nothing. A path that does not start with a slash is looked up from the
working directory. -/
def locate (fs : FS) (path : Str) : Except Errno Key :=
  if path = [] then Except.error Errno.ENOENT
  else if isRooted path then fs.walkFrom [] (splitSlash path)
  else
    match fs.walkFrom [] (splitSlash fs.cwd) with
    | Except.ok k => fs.walkFrom k (splitSlash path)
    | Except.error e => Except.error e

/-- The node a path names, or the error number of the lookup. -/
def find (fs : FS) (path : Str) : Except Errno Node :=
  match fs.locate path with
  | Except.error e => Except.error e
  | Except.ok k =>
    match getKey fs.entries k with
    | some n => Except.ok n
    | none => Except.error Errno.ENOENT

/-- Go `os.Stat` with its error dropped: the node a path names, if any. -/
def stat (fs : FS) (path : Str) : Option Node :=
  match fs.find path with
  | Except.ok n => some n
  | Except.error _ => none

/-- Whether the path names a directory. -/
def isDir (fs : FS) (path : Str) : Bool := fs.stat path = some Node.dir

/-- The names of the entries directly inside the directory with key `d`. -/
def childNames (fs : FS) (d : Key) : List Str :=
  fs.entries.filterMap (fun e =>
    if e.1 ≠ [] ∧ e.1.dropLast = d then e.1.getLast? else none)

/-- The sorted entry names of a directory, `nil` when the path is no directory
(`ioutil.ReadDir` with its error dropped). -/
def ReadDir (fs : FS) (path : Str) : List Str :=
  match fs.locate path with
  | Except.error _ => []
  | Except.ok k =>
    if getKey fs.entries k = some Node.dir then sortNames (fs.childNames k) else []

/-- The bytes of a regular file, `none` for a directory or a missing path. -/
def ReadFile (fs : FS) (path : Str) : Option Str :=
  match fs.stat path with
  | some (Node.file d) => some d
  | _ => none

/-- Go `os.Mkdir`: add a directory when the path is free and its parent is a
directory; the error is the message. (A path with a closing slash is looked up
like any other, which only matters for a path the plugin never passes.) -/
def Mkdir (fs : FS) (path : Str) : Except Str FS :=
  match fs.locate path with
  | Except.error e => Except.error (pathError "mkdir".toList path e)
  | Except.ok k =>
    match getKey fs.entries k with
    | some _ => Except.error (pathError "mkdir".toList path Errno.EEXIST)
    | none => Except.ok { fs with entries := fs.entries ++ [(k, Node.dir)] }

/-- Go `ioutil.WriteFile`: replace the bytes of an existing regular file, or
create the file when the path is free and its parent is a directory. -/
def WriteFile (fs : FS) (path : Str) (data : Str) : Except Str FS :=
  match fs.locate path with
  | Except.error e => Except.error (pathError "open".toList path e)
  | Except.ok k =>
    match getKey fs.entries k with
    | some (Node.file _) =>
      let put := fun (e : Key × Node) => if e.1 = k then (k, Node.file data) else e
      Except.ok { fs with entries := fs.entries.map put }
    | some Node.dir => Except.error (pathError "open".toList path Errno.EISDIR)
    | none => Except.ok { fs with entries := fs.entries ++ [(k, Node.file data)] }

/-- Go `os.Remove`: remove a regular file or an empty directory other than
the root. -/
def Remove (fs : FS) (path : Str) : Except Str FS :=
  match fs.locate path with
  | Except.error e => Except.error (pathError "remove".toList path e)
  | Except.ok k =>
    match getKey fs.entries k with
    | none => Except.error (pathError "remove".toList path Errno.ENOENT)
    | some (Node.file _) =>
      Except.ok { fs with entries := fs.entries.filter (fun e => decide (e.1 ≠ k)) }
    | some Node.dir =>
      if k = [] then Except.error (pathError "remove".toList path Errno.EBUSY)
      else if fs.childNames k = [] then
        Except.ok { fs with entries := fs.entries.filter (fun e => decide (e.1 ≠ k)) }
      else Except.error (pathError "remove".toList path Errno.ENOTEMPTY)

/-- The walk of `filepath.Walk` below one path, with a bound on the depth: the
path itself, then, for a directory, the walk of each entry in name order. -/
def walk (fs : FS) : Nat → Str → List Str
  | 0, path => [path]
  | n + 1, path =>
    path :: (fs.ReadDir path).flatMap (fun name => walk fs n (Join [path, name]))

/-- Go `filepath.Walk` with a function that records every path: the depth of
a tree is at most the number of entries of the table. -/
def Walk (fs : FS) (root : Str) : List Str := walk fs fs.entries.length root

end FS

/-- The function `IsEmpty`: `os.Open` then `Readdirnames(1)`. The first
component is the answer, the second whether an error is returned: a missing
path and a regular file give `(false, error)`, a directory gives its emptiness
and no error. -/
def IsEmpty (fs : FS) (name : Str) : Bool × Bool :=
  match fs.locate name with
  | Except.error _ => (false, true)
  | Except.ok k =>
    match FS.getKey fs.entries k with
    | none => (false, true)
    | some (Node.file _) => (false, true)
    | some Node.dir => (decide (fs.childNames k = []), false)

/-! ## Library code taken as a parameter -/

/-- A `toml.Primitive`, an undecoded section: the zero value, or a table with
its text. -/
inductive Primitive where
  | zero
  | table (body : Str)
  deriving DecidableEq, Repr

/-- What the plugin reads from a `PluginMaker`: `Name()`, `Type()` (the field
`Typ`), `Category()` and, for an input, `int(commonInput.Ticker)`; the ticker
is `none` when `OrigPrepCommonTypedConfig` fails and returns nil. -/
structure Maker where
  Name : Str
  Typ : Str
  Category : Str
  Ticker : Option Int
  deriving DecidableEq, Repr

/-- Library functions of the host pipeline and of the Go standard library.
`decode` is `toml.Decode` into a map of sections, listed in the order a `range`
visits them, whatever the decoding error; `NewPluginMaker` is the maker built
for a section, `none` when the library returns a nil maker with an error (the
section cannot be decoded, or its type is not registered); `ReplaceEnvs` is the
environment substitution of file contents, empty on failure; `Sprintf0` is
`fmt.Sprintf` of a format without operands. -/
structure Externals where
  decode : Str → List (Str × Primitive)
  NewPluginMaker : Str → Primitive → Option Maker
  ReplaceEnvs : Str → Str
  Sprintf0 : Str → Str

/-- The function `ReplaceEnvsFile` with its error dropped: empty when the path
is no readable regular file. -/
def ReplaceEnvsFile (ext : Externals) (fs : FS) (path : Str) : Str :=
  match fs.ReadFile path with
  | some d => ext.ReplaceEnvs d
  | none => []

/-! ## The plugin's data -/

/-- The constant `PROCESSINPUT_TICKER`. -/
def PROCESSINPUT_TICKER : Int := 15

/-- The struct `ConfigFileInfo`. -/
structure ConfigFileInfo where
  confName : Str
  confType : Str
  confCategory : Str
  fileName : Str
  overwrite : Bool
  status : Str
  ticker : Int
  deriving DecidableEq, Repr

/-- The struct `CMBatch`. -/
structure CMBatch where
  queueCursor : Str
  count : Int
  batch : Str
  confInfo : ConfigFileInfo
  deriving DecidableEq, Repr

/-- The struct `CMFilterConfig`. -/
structure CMFilterConfig where
  CMTag : Str
  ExcludePaths : List Str
  IncludeTypes : List Str
  ProcessDir : Str
  LogstreamerDir : Str
  HttpDir : Str
  FilePollingDir : Str
  UseBuffering : Bool
  deriving DecidableEq, Repr

/-- The struct `CMFilter`, the fields the methods below use, followed by the
outside world: the filesystem `fs`, the pending results `rand` of `rand.Read`,
the batches sent on `batchChan` so far, oldest first, whether
`Globals.ShutDown` was called, and whether a goroutine of the process has
panicked. -/
structure CMFilter where
  conf : CMFilterConfig
  count : Int
  outBatch : Str
  queueCursor : Str
  msgLoopCount : Nat
  confInfo : ConfigFileInfo
  includePaths : List Str
  shareDir : Str
  fs : FS
  rand : List (List Nat)
  batchChan : List CMBatch
  shutDown : Bool
  panicked : Bool
  deriving DecidableEq, Repr

/-- The status text `OK`. -/
def OK : Str := "OK".toList

/-- The status text `ERROR`. -/
def ERROR : Str := "ERROR".toList

/-- The zero `ConfigFileInfo`. -/
def ConfigFileInfo.zero : ConfigFileInfo :=
  { confName := [], confType := [], confCategory := [], fileName := [],
    overwrite := false, status := [], ticker := 0 }

/-- The method `ConfigStruct`: the default configuration. -/
def ConfigStruct : CMFilterConfig :=
  { CMTag := "CM".toList, ExcludePaths := [],
    IncludeTypes := ["ProcessInput".toList, "LogstreamerInput".toList,
      "HttpInput".toList, "FilePollingInput".toList],
    ProcessDir := [], LogstreamerDir := [], HttpDir := [], FilePollingDir := [],
    UseBuffering := true }

/-- The method `Init` on a fresh filter, in a given world. -/
def Init (config : CMFilterConfig) (fs : FS) (rand : List (List Nat)) : CMFilter :=
  { conf := config, count := 0, outBatch := [], queueCursor := [], msgLoopCount := 0,
    confInfo := ConfigFileInfo.zero, includePaths := [], shareDir := [],
    fs := fs, rand := rand, batchChan := [], shutDown := false, panicked := false }

/-- A directory setting, or its default below the share directory. -/
def dirOrDefault (dir shareDir name : Str) : Str :=
  if dir = [] then Join [shareDir, name] else dir

/-- The method `Prepare`, up to the start of the two goroutines. -/
def Prepare (f : CMFilter) (shareDir : Str) : CMFilter :=
  let conf := { f.conf with
    ProcessDir := dirOrDefault f.conf.ProcessDir shareDir "processes.d".toList,
    LogstreamerDir := dirOrDefault f.conf.LogstreamerDir shareDir "logstreamers.d".toList,
    HttpDir := dirOrDefault f.conf.HttpDir shareDir "http.d".toList,
    FilePollingDir := dirOrDefault f.conf.FilePollingDir shareDir "files.d".toList }
  { f with
    confInfo := { f.confInfo with ticker := PROCESSINPUT_TICKER },
    shareDir := shareDir,
    conf := conf,
    includePaths := f.includePaths ++
      [conf.ProcessDir, conf.LogstreamerDir, conf.HttpDir, conf.FilePollingDir],
    outBatch := [] }

/-- The outcome of a method that may panic: it returns, or the goroutine
panics, the filter being as it was at that moment. -/
inductive Run (α : Type) where
  | done (a : α)
  | panic (f : CMFilter)

/-- The filter at the end of a run, on either outcome. -/
def Run.world {α : Type} (proj : α → CMFilter) : Run α → CMFilter
  | Run.done a => proj a
  | Run.panic f => f

/-! ## Path safety -/

/-- The error of `checkPath` for a path under an exclude path. -/
def excludeError (path exPath : Str) : Str :=
  "'".toList ++ path ++ "' is under exclude_paths '".toList ++ exPath ++ "'. Skipping.".toList

/-- The loop of `checkPath` over the include paths: `ok` so far, and the
result `(ok, err)`. -/
def checkPathLoop (excludePaths : List Str) (path : Str) : List Str → Bool → Bool × Option Str
  | [], ok => (ok, none)
  | incPath :: rest, ok =>
    match excludePaths.find? (fun exPath => HasPrefix path exPath) with
    | some exPath => (false, some (excludeError path exPath))
    | none => checkPathLoop excludePaths path rest (ok || HasPrefix path incPath)

/-- The method `checkPath`. -/
def checkPath (f : CMFilter) (path : Str) : Bool × Option Str :=
  checkPathLoop f.conf.ExcludePaths path f.includePaths false

/-- The method `checkProcessTickerDir`: `true` when an error is returned. -/
def checkProcessTickerDir (f : CMFilter) (fName : Str) : Bool :=
  let r := IsEmpty f.fs fName
  !HasPrefix fName f.conf.ProcessDir || decide (Clean fName = Clean f.conf.ProcessDir)
    || !r.1 || r.2

/-! ## Batches -/

/-- The method `sendBatch`, on its path without a stop signal: the batch is
sent on `batchChan` and the buffer received back from the committer is empty. -/
def sendBatch (f : CMFilter) : CMFilter :=
  let b : CMBatch :=
    { queueCursor := f.queueCursor, count := f.count, batch := f.outBatch,
      confInfo := f.confInfo }
  { f with count := 0, batchChan := f.batchChan ++ [b], outBatch := [] }

/-- The statement `if len(f.outBatch) > 0 { f.sendBatch() }`. -/
def sendIfAny (f : CMFilter) : CMFilter :=
  if f.outBatch ≠ [] then sendBatch f else f

/-! ## Section information -/

/-- The body of `getConfigFileInfo`, given the current `f.confInfo.ticker`:
name, type, category and ticker of a section; the ticker of a section that is
no input is the current one. The result is `none` when the call panics: the
maker is nil (`maker.Type()` on a nil interface), or the section is an input
whose common configuration is nil (the type assertion on it fails). -/
def sectionInfo (ext : Externals) (ticker : Int) (name : Str) (configFile : Primitive) :
    Option (Str × Str × Str × Int) :=
  match ext.NewPluginMaker name configFile with
  | none => none
  | some maker =>
    if maker.Typ ≠ [] then
      if maker.Category = "Input".toList then
        match maker.Ticker with
        | some t => some (maker.Name, maker.Typ, maker.Category, t)
        | none => none
      else some (maker.Name, maker.Typ, maker.Category, ticker)
    else some ([], [], [], ticker)

/-- The method `getConfigFileInfo`; `none` when it panics. -/
def getConfigFileInfo (ext : Externals) (f : CMFilter) (name : Str) (configFile : Primitive) :
    Option (Str × Str × Str × Int) :=
  sectionInfo ext f.confInfo.ticker name configFile

/-- The assignment of the four results of `getConfigFileInfo` to a
`ConfigFileInfo`. -/
def setInfo (ci : ConfigFileInfo) (r : Str × Str × Str × Int) : ConfigFileInfo :=
  { ci with confName := r.1, confType := r.2.1, confCategory := r.2.2.1, ticker := r.2.2.2 }

/-- The filter with another status. -/
def setStatus (f : CMFilter) (status : Str) : CMFilter :=
  { f with confInfo := { f.confInfo with status := status } }

/-- The filter with another file name in its descriptor. -/
def setFileName (f : CMFilter) (fileName : Str) : CMFilter :=
  { f with confInfo := { f.confInfo with fileName := fileName } }

/-! ## Add -/

/-- The `switch` of `addConfig` on `cfi.confType`: the directory of a
configuration type, for the ticker `cfi.ticker`. -/
def addDir (conf : CMFilterConfig) (confType : Str) (ticker : Int) : Option Str :=
  if confType = "ProcessInput".toList then
    some (Clean conf.ProcessDir ++ "/".toList ++ Itoa ticker)
  else if confType = "LogstreamerInput".toList then some (Clean conf.LogstreamerDir)
  else if confType = "HttpInput".toList then some (Clean conf.HttpDir)
  else if confType = "FilePollingInput".toList then some (Clean conf.FilePollingDir)
  else none

/-- The call `rand.Read(randBytes)` on a slice of 16 bytes: the next pending
result, cut or filled with zeros to 16 bytes. -/
def randRead (f : CMFilter) : List Nat × CMFilter :=
  match f.rand with
  | [] => (List.replicate 16 0, f)
  | r :: rest => (((r.map (fun b => b % 256)) ++ List.replicate 16 0).take 16, { f with rand := rest })

/-- The inner loop of the duplicate check: `dup` after the sections of one
existing file, `none` when `getConfigFileInfo` panics on one of them. -/
def scanSections (ext : Externals) (f : CMFilter) (cfi : ConfigFileInfo) :
    List (Str × Primitive) → Bool → Option Bool
  | [], dup => some dup
  | (name, conf) :: rest, dup =>
    match getConfigFileInfo ext f name conf with
    | none => none
    | some existing =>
      scanSections ext f cfi rest
        (if cfi.confName = existing.1 ∧ cfi.ticker = existing.2.2.2 then true else dup)

/-- The variables of the duplicate check of `addConfig`. -/
structure Scan where
  f : CMFilter
  dup : Bool
  confFile : Str
  buffer : Str

/-- The outcome of the duplicate check: `addConfig` returned from inside the
loop, the loop ran to its end, or it panicked. -/
inductive ScanResult where
  | returned (f : CMFilter) (result : Str)
  | finished (s : Scan)
  | panicked (f : CMFilter)

/-- The filter at the end of the duplicate check, on every outcome. -/
def ScanResult.filter : ScanResult → CMFilter
  | ScanResult.returned f _ => f
  | ScanResult.finished s => s.f
  | ScanResult.panicked f => f

/-- The message of `addConfig` for a duplicate without overwrite. -/
def duplicateMessage (existingFName fileContents : Str) : Str :=
  "Duplicate config already exists for this interval and overwrite is disabled.\nNot adding configuration.\nFilename: ".toList
    ++ existingFName ++ "\n".toList ++ fileContents

/-- The text `addConfig` puts into its buffer when it overwrites. -/
def overwriteMessage (existingFName fileContents : Str) : Str :=
  "Overwriting existing configuration.\nFilename: ".toList
    ++ existingFName ++ "\n".toList ++ fileContents ++ "\n".toList

/-- The duplicate check of `addConfig`: the loop over the entries of the
directory. -/
def scanFiles (ext : Externals) (payload : Str) (cfi : ConfigFileInfo) (dir : Str) :
    List Str → Scan → ScanResult
  | [], s => ScanResult.finished s
  | name :: rest, s =>
    let existingFName := Join [dir, name]
    let fileContents := ReplaceEnvsFile ext s.f.fs existingFName
    match scanSections ext s.f cfi (ext.decode fileContents) s.dup with
    | none => ScanResult.panicked s.f
    | some dup =>
      if payload = fileContents ∨ dup = true then
        let f1 := setFileName s.f existingFName
        if cfi.overwrite = false then
          ScanResult.returned (setStatus f1 ERROR) (duplicateMessage existingFName fileContents)
        else
          scanFiles ext payload cfi dir rest
            { f := f1, dup := dup, confFile := existingFName,
              buffer := s.buffer ++ overwriteMessage existingFName fileContents }
      else scanFiles ext payload cfi dir rest { s with dup := dup }

/-- The statement `if _, err := os.Stat(dir); os.IsNotExist(err) { os.Mkdir(dir, 0755) }`,
the error of `Mkdir` dropped. -/
def mkdirIfMissing (f : CMFilter) (dir : Str) : CMFilter :=
  match f.fs.find dir with
  | Except.error Errno.ENOENT =>
    match f.fs.Mkdir dir with
    | Except.ok fs1 => { f with fs := fs1 }
    | Except.error _ => f
  | _ => f

/-- The generated file name: `heka`, the hexadecimal bytes, `.toml`. -/
def genName (randBytes : List Nat) : Str :=
  "heka".toList ++ hexEncode randBytes ++ ".toml".toList

/-- The method `addConfig`: the filter after the call and the result, or a
panic. -/
def addConfig (ext : Externals) (f : CMFilter) (payload : Str) (cfi : ConfigFileInfo) :
    Run (CMFilter × Str) :=
  match addDir f.conf cfi.confType cfi.ticker with
  | none => Run.done (setStatus f ERROR, "Unable to determine configuration directory.".toList)
  | some dir =>
    let f1 := mkdirIfMissing f dir
    let r := randRead f1
    let confFile := Join [dir, genName r.1]
    match scanFiles ext payload cfi dir (r.2.fs.ReadDir dir)
        { f := r.2, dup := false, confFile := confFile, buffer := [] } with
    | ScanResult.panicked f2 => Run.panic f2
    | ScanResult.returned f2 result => Run.done (f2, result)
    | ScanResult.finished s =>
      match s.f.fs.WriteFile s.confFile payload with
      | Except.error e => Run.done (setStatus s.f ERROR, "Failed due to error: ".toList ++ e)
      | Except.ok fs1 =>
        Run.done (setFileName { s.f with fs := fs1 } s.confFile,
          s.buffer ++ "Successfully updated configuation!".toList)

/-! ## Remove -/

/-- The method `removeConfig`: the filter after the call and the result. -/
def removeConfig (ext : Externals) (f : CMFilter) (fName : Str) : CMFilter × Str :=
  let f := setFileName f fName
  match f.fs.find fName with
  | Except.error e =>
    (setStatus f ERROR, ext.Sprintf0 ("can't stat file: ".toList ++
      pathError "stat".toList fName e))
  | Except.ok fi =>
    if fi = Node.dir ∧ f.confInfo.confType = "ProcessDirectoryInput".toList
        ∧ checkProcessTickerDir f fName = true then
      (setStatus f ERROR, "You cannot delete this directory: ".toList ++ fName)
    else
      let parentDir := Dir fName
      match (checkPath f fName).2 with
      | some err => (setStatus f ERROR, ext.Sprintf0 err)
      | none =>
        match f.fs.Remove fName with
        | Except.error err => (setStatus f ERROR, ext.Sprintf0 err)
        | Except.ok fs1 =>
          let f := { f with fs := fs1 }
          if (IsEmpty f.fs parentDir).1 = true
              ∧ f.confInfo.confType = "ProcessDirectoryInput".toList then
            if checkProcessTickerDir f parentDir = false then
              let f :=
                match f.fs.Remove parentDir with
                | Except.ok fs2 => { f with fs := fs2 }
                | Except.error _ => f
              (f, "Successfully removed file: ".toList ++ fName
                ++ " as well as empty process ticker directory: ".toList ++ parentDir)
            else
              (setStatus f ERROR, "Successfully removed file: ".toList ++ fName
                ++ " but failed to remove process ticker directory: ".toList ++ parentDir)
          else (f, "Successfully deleted file: ".toList ++ fName)

/-! ## Return -/

/-- The map index `unparsedConfig[pluginType]`. -/
def lookupSection : List (Str × Primitive) → Str → Option Primitive
  | [], _ => none
  | (k, v) :: rest, key => if k = key then some v else lookupSection rest key

/-- The loop of `sendConfigContents` over the include types, on the
variables `pluginType` and `section`: it stops at the first type the file
declares, and ends on the last type with the zero section otherwise. -/
def selectSection (unparsed : List (Str × Primitive)) : List Str → Str × Primitive → Str × Primitive
  | [], cur => cur
  | pluginType :: rest, _ =>
    match lookupSection unparsed pluginType with
    | some sect => (pluginType, sect)
    | none => selectSection unparsed rest (pluginType, Primitive.zero)

/-- The variables of the loop of `sendConfigContents` over the walked files. -/
structure Listing where
  f : CMFilter
  pluginType : Str
  sect : Primitive

/-- The body both branches of `sendConfigContents` run for a file that is not
skipped: read it, derive the descriptor, append the contents to the buffer,
count, set the status and send the buffer when it is not empty. It panics,
before anything is appended, when `getConfigFileInfo` does. -/
def sendFile (ext : Externals) (l : Listing) (fName : Str) : Run Listing :=
  let confString := ReplaceEnvsFile ext l.f.fs fName
  let sel := selectSection (ext.decode confString) l.f.conf.IncludeTypes (l.pluginType, l.sect)
  match getConfigFileInfo ext l.f sel.1 sel.2 with
  | none => Run.panic l.f
  | some info =>
    let ci := { setInfo l.f.confInfo info with fileName := fName, status := OK }
    let f1 := { l.f with
      confInfo := ci,
      outBatch := l.f.outBatch ++ confString,
      count := l.f.count + 1 }
    Run.done { f := sendIfAny f1, pluginType := sel.1, sect := sel.2 }

/-- The loop `FILES` of `sendConfigContents`. -/
def sendFiles (ext : Externals) : List Str → Listing → Run Listing
  | [], l => Run.done l
  | fName :: rest, l =>
    if HasSuffix fName ".toml".toList = false then sendFiles ext rest l
    else if l.f.conf.ExcludePaths.any (fun excludePath => HasPrefix fName excludePath) then
      sendFiles ext rest l
    else
      match sendFile ext l fName with
      | Run.done l1 => sendFiles ext rest l1
      | Run.panic f => Run.panic f

/-- The method `sendConfigContents`: the filter after the call and the error
returned, if any; or a panic. -/
def sendConfigContents (ext : Externals) (f : CMFilter) (configPath : Str) :
    Run (CMFilter × Option Str) :=
  match f.fs.find configPath with
  | Except.error e =>
    Run.done (f, some (ext.Sprintf0 ("error opening file: ".toList ++
      pathError "open".toList configPath e)))
  | Except.ok Node.dir =>
    match sendFiles ext (f.fs.Walk configPath)
        { f := f, pluginType := [], sect := Primitive.zero } with
    | Run.done l => Run.done (l.f, none)
    | Run.panic f1 => Run.panic f1
  | Except.ok (Node.file _) =>
    if HasSuffix configPath ".toml".toList = false then Run.done (f, none)
    else if f.conf.ExcludePaths.any
        (fun excludePath => decide (configPath = excludePath)
          || decide (Clean configPath = Clean excludePath)) then Run.done (f, none)
    else
      match sendFile ext { f := f, pluginType := [], sect := Primitive.zero } configPath with
      | Run.done l => Run.done (l.f, none)
      | Run.panic f1 => Run.panic f1

/-! ## The dispatcher -/

/-- The value of a message field, with its value type. -/
inductive FieldValue where
  | string (s : Str)
  | bytes (b : Str)
  | integer (i : Int)
  | double (bits : Nat)
  | bool (b : Bool)
  deriving DecidableEq, Repr

/-- A message: its payload and its fields, each with its first value. -/
structure Message where
  Payload : Str
  Fields : List (Str × FieldValue)
  deriving DecidableEq, Repr

/-- The struct `MsgPack`. -/
structure MsgPack where
  Message : Message
  MsgLoopCount : Nat
  queueCursor : Str
  deriving DecidableEq, Repr

/-- The method `GetFieldValue`: the value of the first field of that name. -/
def GetFieldValue : List (Str × FieldValue) → Str → Option FieldValue
  | [], _ => none
  | (k, v) :: rest, name => if k = name then some v else GetFieldValue rest name

/-- The state of the loop of `batchSender`: the filter and the local
variable `outBytes`, which is declared before the loop. -/
structure Sender where
  f : CMFilter
  outBytes : Str

/-- The descriptor `batchSender` assigns at the start of every request. -/
def freshInfo : ConfigFileInfo :=
  { confName := [], confType := [], confCategory := [], fileName := [],
    overwrite := false, status := OK, ticker := PROCESSINPUT_TICKER }

/-- The loop `CONFIG` of the add branch over the decoded sections. -/
def addSections (ext : Externals) (payload : Str) :
    List (Str × Primitive) → CMFilter × Str → Run (CMFilter × Str)
  | [], s => Run.done s
  | (name, conf) :: rest, s =>
    match getConfigFileInfo ext s.1 name conf with
    | none => Run.panic s.1
    | some info =>
      let f1 := { s.1 with confInfo := setInfo s.1.confInfo info }
      if f1.confInfo.confType ∈ f1.conf.IncludeTypes then
        match addConfig ext f1 payload f1.confInfo with
        | Run.done r => addSections ext payload rest r
        | Run.panic f2 => Run.panic f2
      else addSections ext payload rest (f1, s.2)

/-- The branch `case "add"` of `batchSender`. -/
def addBranch (ext : Externals) (f : CMFilter) (outBytes : Str) (msg : Message) :
    Run (CMFilter × Str) :=
  let payload := msg.Payload
  let f1 :=
    match GetFieldValue msg.Fields "Overwrite".toList with
    | some (FieldValue.string value) =>
      { f with confInfo := { f.confInfo with overwrite := ParseBool value } }
    | _ => f
  addSections ext payload (ext.decode payload) (f1, outBytes)

/-- The branch `case "delete"` of `batchSender`. -/
def deleteBranch (ext : Externals) (f : CMFilter) (outBytes : Str) (msg : Message) :
    CMFilter × Str :=
  match GetFieldValue msg.Fields "Filename".toList with
  | some (FieldValue.string value) => removeConfig ext f value
  | some _ => (f, outBytes)
  | none =>
    (setStatus f ERROR, "You must specify a 'Filename' Field when deleting.".toList)

/-- The loop of the return branch over the include paths, which stops and
calls `ShutDown` at the first error. -/
def returnLoop (ext : Externals) : List Str → CMFilter → Run CMFilter
  | [], f => Run.done f
  | configPath :: rest, f =>
    match sendConfigContents ext f configPath with
    | Run.panic f1 => Run.panic f1
    | Run.done (f1, some _) => Run.done { f1 with shutDown := true }
    | Run.done (f1, none) => returnLoop ext rest f1

/-- The branch `case "return"` of `batchSender`. -/
def returnBranch (ext : Externals) (f : CMFilter) (outBytes : Str) (pack : MsgPack) :
    Run (CMFilter × Str) :=
  let f1 := { f with queueCursor := pack.queueCursor }
  match returnLoop ext f1.includePaths f1 with
  | Run.done f2 => Run.done (f2, outBytes)
  | Run.panic f2 => Run.panic f2

/-- The payload of the `default` branch of `batchSender`. -/
def unrecognizedMessage : Str :=
  "ERROR Applying Configuration: You must supply an action(add, remove, return)".toList

/-- The `switch action` of `batchSender`. -/
def switchAction (ext : Externals) (f : CMFilter) (outBytes : Str) (pack : MsgPack) :
    Run (CMFilter × Str) :=
  match GetFieldValue pack.Message.Fields "Action".toList with
  | some (FieldValue.string action) =>
    if action = "add".toList then addBranch ext f outBytes pack.Message
    else if action = "delete".toList then Run.done (deleteBranch ext f outBytes pack.Message)
    else if action = "return".toList then returnBranch ext f outBytes pack
    else Run.done (f, unrecognizedMessage)
  | _ => Run.done (f, unrecognizedMessage)

/-- One turn of the loop of `batchSender`, for a pack received on `recvChan`.
A process that has panicked takes no more packs; a panic in this turn leaves
the filter as it was at that moment and is recorded in `panicked`. -/
def batchSenderStep (ext : Externals) (s : Sender) (pack : MsgPack) : Sender :=
  if s.f.panicked = true then s
  else
    let f0 := { s.f with msgLoopCount := pack.MsgLoopCount, confInfo := freshInfo }
    match switchAction ext f0 s.outBytes pack with
    | Run.panic f => { f := { f with panicked := true }, outBytes := s.outBytes }
    | Run.done r =>
      let f1 := { r.1 with
        outBatch := r.1.outBatch ++ r.2,
        queueCursor := pack.queueCursor,
        count := r.1.count + 1 }
      { f := sendIfAny f1, outBytes := r.2 }

/-- The method `batchSender` on the packs it receives, in order; `outBytes`
starts empty. -/
def batchSender (ext : Externals) (f : CMFilter) (packs : List MsgPack) : Sender :=
  packs.foldl (batchSenderStep ext) { f := f, outBytes := [] }

/-! ## A concrete instance of the library parameters

Used to run the model on concrete requests. It reads the small subset of TOML
the examples below are written in: `[name]` headers, each followed by
`key = value` lines. Its registry of plugin types holds the four types of the
default include list. -/

/-- Separate a text at every line feed. -/
def splitLines : Str → List Str
  | [] => [[]]
  | c :: cs =>
    if c = '\n' then [] :: splitLines cs
    else
      match splitLines cs with
      | [] => [[c]]
      | x :: xs => (c :: x) :: xs

/-- The name of a `[name]` header line. -/
def sectionHeader : Str → Option Str
  | '[' :: rest => if rest.getLast? = some ']' then some rest.dropLast else none
  | _ => none

/-- The sections of a list of lines, last section first: a header opens a
section, any other line joins the body of the open section. -/
def demoSections : List Str → List (Str × Str) → List (Str × Str)
  | [], acc => acc
  | line :: rest, acc =>
    match sectionHeader line with
    | some name => demoSections rest ((name, []) :: acc)
    | none =>
      match acc with
      | [] => demoSections rest []
      | (name, body) :: before => demoSections rest ((name, body ++ line ++ ['\n']) :: before)

/-- The sections of a text, in the order they are written. -/
def demoDecode (contents : Str) : List (Str × Primitive) :=
  (demoSections (splitLines contents) []).reverse.map (fun s => (s.1, Primitive.table s.2))

/-- The text after `key = ` on the first line of a body that starts so. -/
def demoValue (key : Str) (body : Str) : Option Str :=
  ((splitLines body).find? (fun line => HasPrefix line (key ++ " = ".toList))).map
    (fun line => line.drop (key.length + 3))

/-- The number written in decimal digits. -/
def demoNat (s : Str) : Nat := s.foldl (fun n c => 10 * n + (c.toNat - '0'.toNat)) 0

/-- The maker of a section. The zero section has none. The type of a table
is the quoted value of `type`, or the section name; there is no maker for a
type outside the registry; the category of the registered types is `Input`;
the ticker is the value of `ticker_interval`, or zero. -/
def demoMaker (name : Str) : Primitive → Option Maker
  | Primitive.zero => none
  | Primitive.table body =>
    let typ := ((demoValue "type".toList body).map (fun v => v.filter (fun c => c ≠ '"'))).getD name
    if typ ∈ ConfigStruct.IncludeTypes then
      some { Name := name, Typ := typ, Category := "Input".toList,
             Ticker := some (((demoValue "ticker_interval".toList body).map
               (fun v => (demoNat v : Int))).getD 0) }
    else none

/-- The instance: no environment substitution, formats without verbs. -/
def demoExt : Externals :=
  { decode := demoDecode, NewPluginMaker := demoMaker, ReplaceEnvs := id, Sprintf0 := id }

/-- A configuration with the four roots below `/cfg`. -/
def demoConf (excludePaths : List Str) : CMFilterConfig :=
  { ConfigStruct with
    ExcludePaths := excludePaths,
    ProcessDir := "/cfg/proc".toList, LogstreamerDir := "/cfg/logs".toList,
    HttpDir := "/cfg/http".toList, FilePollingDir := "/cfg/files".toList }

/-- The key of an absolute path written without `.` and `..`. -/
def keyOf (path : String) : Key := (splitSlash path.toList).filter (fun c => c ≠ [])

/-- The directories every example filesystem starts from. -/
def demoDirs : List (Key × Node) :=
  [(keyOf "/", Node.dir), (keyOf "/cfg", Node.dir), (keyOf "/cfg/proc", Node.dir),
   (keyOf "/cfg/logs", Node.dir), (keyOf "/cfg/http", Node.dir),
   (keyOf "/cfg/files", Node.dir), (keyOf "/etc", Node.dir)]

/-- A prepared filter over the example directories and some more entries. -/
def demoFilter (excludePaths : List Str) (more : List (Key × Node)) : CMFilter :=
  Prepare (Init (demoConf excludePaths) { cwd := "/".toList, entries := demoDirs ++ more } [])
    "/share".toList

/-- A prepared filter whose process root is written with a closing slash. -/
def slashFilter : CMFilter :=
  Prepare (Init { demoConf [] with ProcessDir := "/cfg/proc/".toList }
    { cwd := "/".toList, entries := demoDirs } []) "/share".toList

/-- A request with an action and further fields. -/
def demoPack (action : Str) (fields : List (Str × FieldValue)) (payload : Str) : MsgPack :=
  { Message := { Payload := payload,
                 Fields := ("Action".toList, FieldValue.string action) :: fields },
    MsgLoopCount := 0, queueCursor := "c1".toList }

/-! ## Definitions for the statements -/

/-- A filesystem entry for a regular file. -/
def demoFile (path contents : String) : Key × Node := (keyOf path, Node.file contents.toList)

/-- A filesystem entry for a directory. -/
def demoDir (path : String) : Key × Node := (keyOf path, Node.dir)

/-- A delete request for a file name. -/
def demoDelete (fName : String) : MsgPack :=
  demoPack "delete".toList [("Filename".toList, FieldValue.string fName.toList)] []

/-- The statuses of the batches sent so far. -/
def statuses (s : Sender) : List Str := s.f.batchChan.map (fun b => b.confInfo.status)

/-- The payloads of the batches sent so far. -/
def payloads (s : Sender) : List Str := s.f.batchChan.map (fun b => b.batch)

/-- The path-safety predicate as the specification words it, with prefixes
compared on cleaned paths: no exclude path is a prefix and some managed root
is one. -/
def permitsCleaned (f : CMFilter) (path : Str) : Bool :=
  f.conf.ExcludePaths.all (fun exPath => !HasPrefix (Clean path) (Clean exPath))
    && f.includePaths.any (fun incPath => HasPrefix (Clean path) (Clean incPath))

/-- The path-safety predicate on the strings as they are given: no exclude
path is a prefix and some managed root is one. -/
def permitsRaw (f : CMFilter) (path : Str) : Bool :=
  f.conf.ExcludePaths.all (fun exPath => !HasPrefix path exPath)
    && f.includePaths.any (fun incPath => HasPrefix path incPath)

/-- The payload of an add request with two eligible sections. -/
def twoSections : String :=
  "[l]\ntype = \"LogstreamerInput\"\n[m]\ntype = \"LogstreamerInput\""

/-- A batch as the committer should receive it: the status is `OK` or
`ERROR`, and the payload is not empty. -/
def GoodBatch (b : CMBatch) : Prop :=
  (b.confInfo.status = OK ∨ b.confInfo.status = ERROR) ∧ b.batch ≠ []

/-- The status of the current descriptor is `OK` or `ERROR`. -/
def GoodStatus (f : CMFilter) : Prop :=
  f.confInfo.status = OK ∨ f.confInfo.status = ERROR

/-- The batches sent are those of `base` followed by good batches only. -/
def Extends (base : List CMBatch) (f : CMFilter) : Prop :=
  ∃ new, f.batchChan = base ++ new ∧ ∀ b ∈ new, GoodBatch b

/-- Between two filters no batch was sent, the record of a panic is the same,
and the status was kept or set to `ERROR`. -/
def Quiet (f g : CMFilter) : Prop :=
  g.batchChan = f.batchChan ∧ g.panicked = f.panicked
    ∧ (g.confInfo.status = f.confInfo.status ∨ g.confInfo.status = ERROR)

/-- A sender whose log-stream directory holds `a.toml`, declaring the
section `l`. -/
def dupSender : Sender :=
  { f := demoFilter [] [demoFile "/cfg/logs/a.toml" "[l]\ntype = \"LogstreamerInput\"\nx = 1"],
    outBytes := [] }

/-- An add request, without overwrite, for a section `l` of the same type. -/
def dupPack : MsgPack :=
  demoPack "add".toList [] "[l]\ntype = \"LogstreamerInput\"\nx = 2".toList

/-- Some section of a decoded file has the given name and the given ticker,
`ticker0` being the current ticker, the one of sections that are no input. -/
def declaresSame (ext : Externals) (ticker0 : Int) (confName : Str) (ticker : Int)
    (sections : List (Str × Primitive)) : Bool :=
  sections.any (fun sec =>
    match sectionInfo ext ticker0 sec.1 sec.2 with
    | some info => decide (confName = info.1 ∧ ticker = info.2.2.2)
    | none => false)

/-- Every section of a decoded file has a descriptor: `getConfigFileInfo`
does not panic on it. -/
def allReadable (ext : Externals) (ticker0 : Int) (sections : List (Str × Primitive)) : Bool :=
  sections.all (fun sec => (sectionInfo ext ticker0 sec.1 sec.2).isSome)

/-- Every section of every entry of the directory `dir` has a descriptor. -/
def dirReadable (ext : Externals) (fs : FS) (ticker0 : Int) (dir : Str) : Prop :=
  ∀ name ∈ fs.ReadDir dir,
    allReadable ext ticker0 (ext.decode (ReplaceEnvsFile ext fs (Join [dir, name]))) = true

/-- The file at `path` is a duplicate of the new configuration: its contents,
after environment substitution, are the payload byte for byte, or it declares a
section with the same name and the same ticker. -/
def isDuplicate (ext : Externals) (fs : FS) (ticker0 : Int) (confName : Str) (ticker : Int)
    (payload path : Str) : Bool :=
  decide (payload = ReplaceEnvsFile ext fs path)
    || declaresSame ext ticker0 confName ticker (ext.decode (ReplaceEnvsFile ext fs path))

/-- The section `sec` of a payload, read while the current ticker is `t`, is
eligible: it has a descriptor and its type is in the include list. -/
def Eligible (ext : Externals) (conf : CMFilterConfig) (sec : Str × Primitive) (t : Int) : Prop :=
  ∃ info, sectionInfo ext t sec.1 sec.2 = some info ∧ info.2.1 ∈ conf.IncludeTypes

/-- The section `sec` of a payload, read while the current ticker is `t`, has
a descriptor, and when it is eligible its type has a target directory, every
section of every file in that directory has a descriptor, and some file in that
directory is a duplicate of the section. -/
def HasDuplicate (ext : Externals) (fs : FS) (conf : CMFilterConfig) (payload : Str)
    (sec : Str × Primitive) (t : Int) : Prop :=
  ∃ info, sectionInfo ext t sec.1 sec.2 = some info
    ∧ (info.2.1 ∈ conf.IncludeTypes →
        ∃ dir, addDir conf info.2.1 info.2.2.2 = some dir
          ∧ dirReadable ext fs info.2.2.2 dir
          ∧ ∃ name ∈ fs.ReadDir dir,
              isDuplicate ext fs info.2.2.2 info.1 info.2.2.2 payload (Join [dir, name]) = true)

/-- What the committer reads of a batch for the listing: file name, status
and payload. -/
def batchView (b : CMBatch) : Str × Str × Str := (b.confInfo.fileName, b.confInfo.status, b.batch)

/-- A walked path is listed by a return request: it ends in `.toml`, no
exclude path is a prefix of it, and its contents after environment
substitution are not empty. -/
def listed (ext : Externals) (f : CMFilter) (path : Str) : Bool :=
  HasSuffix path ".toml".toList
    && !f.conf.ExcludePaths.any (fun excludePath => HasPrefix path excludePath)
    && decide (ReplaceEnvsFile ext f.fs path ≠ [])

/-- The batches a return request is to produce, as the committer reads them:
one for each listed path of the walks of the managed roots, in order, with the
path, the status `OK` and the contents. -/
def expectedListing (ext : Externals) (f : CMFilter) (roots : List Str) : List (Str × Str × Str) :=
  ((roots.flatMap (fun root => f.fs.Walk root)).filter (listed ext f)).map
    (fun path => (path, OK, ReplaceEnvsFile ext f.fs path))

/-- The descriptor of the file at `path` in a listing, read while the current
ticker is `t`: that of its first section named after an include type, or of
the zero section under the last include type; `none` when `getConfigFileInfo`
panics on it. -/
def fileInfo (ext : Externals) (fs : FS) (conf : CMFilterConfig) (path : Str) (t : Int) :
    Option (Str × Str × Str × Int) :=
  sectionInfo ext t
    (selectSection (ext.decode (ReplaceEnvsFile ext fs path)) conf.IncludeTypes
      ([], Primitive.zero)).1
    (selectSection (ext.decode (ReplaceEnvsFile ext fs path)) conf.IncludeTypes
      ([], Primitive.zero)).2

/-- Every file a return request reads below the roots has a descriptor: each
walked path that ends in `.toml` and has no exclude path as prefix. -/
def Listable (ext : Externals) (f : CMFilter) (roots : List Str) : Prop :=
  ∀ root ∈ roots, ∀ path ∈ f.fs.Walk root,
    HasSuffix path ".toml".toList = true →
    f.conf.ExcludePaths.any (fun excludePath => HasPrefix path excludePath) = false →
    ∀ t : Int, (fileInfo ext f.fs f.conf path t).isSome = true

/-- A sender over three configuration files and one below the exclude path
`/cfg/logs/x`, before any request. -/
def listSender : Sender :=
  { f := demoFilter ["/cfg/logs/x".toList]
      [demoDir "/cfg/proc/30",
       demoFile "/cfg/proc/30/p.toml" "[ProcessInput]\nticker_interval = 30",
       demoFile "/cfg/logs/a.toml" "[LogstreamerInput]\nx = 1", demoDir "/cfg/logs/x",
       demoFile "/cfg/logs/x/skip.toml" "[s]", demoFile "/cfg/http/h.toml" "[HttpInput]",
       demoFile "/cfg/http/notes.txt" "n"],
    outBytes := [] }

/-- A sender whose process root `/cfg/processes` does not exist yet, while the
log-stream root holds a configuration file. -/
def gapSender : Sender :=
  { f := Prepare (Init { demoConf [] with ProcessDir := "/cfg/processes".toList }
      { cwd := "/".toList,
        entries := demoDirs ++ [demoFile "/cfg/logs/a.toml" "[LogstreamerInput]\nx = 1"] } [])
      "/share".toList,
    outBytes := [] }

/-- Whether a run ended in a panic. -/
def Run.isPanic {α : Type} : Run α → Bool
  | Run.panic _ => true
  | Run.done _ => false

/-- The descriptor the add branch hands to `addConfig` for a section `l` of
type `LogstreamerInput` without a ticker interval. -/
def strayInfo : ConfigFileInfo :=
  { freshInfo with
    confName := "l".toList,
    confType := "LogstreamerInput".toList,
    confCategory := "Input".toList,
    ticker := 0 }

/-- A filter whose log-stream directory holds `x.toml`, a file with one
section of a type that is not registered, at the call of `addConfig` for
`strayInfo`. -/
def strayFilter : CMFilter :=
  { demoFilter [] [demoFile "/cfg/logs/x.toml" "[foo]\nx = 1"] with confInfo := strayInfo }

/-- The payload of the add request for the section `l`. -/
def strayPayload : Str := "[l]\ntype = \"LogstreamerInput\"".toList

/-! # Theorems -/

/-! ## Path safety -/

theorem checkPathLoop_of_excluded (excludePaths : List Str) (path exPath : Str)
    (h : excludePaths.find? (fun e => HasPrefix path e) = some exPath)
    (incPath : Str) (rest : List Str) (ok : Bool) :
    checkPathLoop excludePaths path (incPath :: rest) ok
      = (false, some (excludeError path exPath)) := by
  simp [checkPathLoop, h]

theorem checkPathLoop_of_not_excluded (excludePaths : List Str) (path : Str)
    (h : excludePaths.find? (fun e => HasPrefix path e) = none) :
    ∀ (incPaths : List Str) (ok : Bool),
      checkPathLoop excludePaths path incPaths ok
        = (ok || incPaths.any (fun i => HasPrefix path i), none) := by
  intro incPaths
  induction incPaths with
  | nil => intro ok; simp [checkPathLoop]
  | cons i rest ih =>
    intro ok
    simp [checkPathLoop, h, ih, Bool.or_assoc]

theorem includePaths_Prepare (conf : CMFilterConfig) (fs : FS) (rand : List (List Nat))
    (shareDir : Str) :
    (Prepare (Init conf fs rand) shareDir).includePaths
      = [(Prepare (Init conf fs rand) shareDir).conf.ProcessDir,
         (Prepare (Init conf fs rand) shareDir).conf.LogstreamerDir,
         (Prepare (Init conf fs rand) shareDir).conf.HttpDir,
         (Prepare (Init conf fs rand) shareDir).conf.FilePollingDir] := by
  simp [Prepare, Init]

theorem checkPath_eq_of_cons (f : CMFilter) (path : Str) (i : Str) (rest : List Str)
    (hinc : f.includePaths = i :: rest) :
    (checkPath f path = (true, none) ↔ permitsRaw f path = true)
    ∧ (f.conf.ExcludePaths.any (fun e => HasPrefix path e) = true →
        (checkPath f path).1 = false ∧ (checkPath f path).2 ≠ none) := by
  unfold checkPath permitsRaw
  rw [hinc]
  cases hfind : f.conf.ExcludePaths.find? (fun e => HasPrefix path e) with
  | none =>
    rw [checkPathLoop_of_not_excluded _ _ hfind]
    have hall : ∀ e ∈ f.conf.ExcludePaths, HasPrefix path e = false := by
      intro e he
      have := List.find?_eq_none.mp hfind e he
      simpa using this
    constructor
    · constructor
      · intro h
        simp only [Prod.mk.injEq, Bool.false_or, and_true] at h
        simp only [Bool.and_eq_true, List.all_eq_true, Bool.not_eq_true']
        exact ⟨hall, h⟩
      · intro h
        simp only [Bool.and_eq_true, List.all_eq_true, Bool.not_eq_true'] at h
        simp only [Prod.mk.injEq, Bool.false_or, and_true]
        exact h.2
    · intro hany
      rw [List.any_eq_true] at hany
      obtain ⟨e, he, hp⟩ := hany
      rw [hall e he] at hp
      cases hp
  | some ex =>
    rw [checkPathLoop_of_excluded _ _ _ hfind]
    have hmem := List.mem_of_find?_eq_some hfind
    have hp : HasPrefix path ex = true := by
      have := List.find?_some hfind
      simpa using this
    constructor
    · constructor
      · intro h; simp at h
      · intro h
        simp only [Bool.and_eq_true, List.all_eq_true, Bool.not_eq_true'] at h
        have := h.1 ex hmem
        rw [hp] at this
        cases this
    · intro _
      simp

/-- C2, amended: for every configuration built by `Prepare` and every path,
`checkPath` permits the path (ok = true, no error) exactly when no exclude path
is a prefix of the path and some managed root is one, the prefixes compared on
the strings as given (`strings.HasPrefix`, no cleaning); and a path with an
exclude path as prefix is rejected with an error, whatever root it matches. -/
theorem checkPath_permits_iff_raw (conf : CMFilterConfig) (fs : FS) (rand : List (List Nat))
    (shareDir path : Str) :
    (checkPath (Prepare (Init conf fs rand) shareDir) path = (true, none)
      ↔ permitsRaw (Prepare (Init conf fs rand) shareDir) path = true)
    ∧ ((Prepare (Init conf fs rand) shareDir).conf.ExcludePaths.any
          (fun e => HasPrefix path e) = true →
        (checkPath (Prepare (Init conf fs rand) shareDir) path).1 = false
        ∧ (checkPath (Prepare (Init conf fs rand) shareDir) path).2 ≠ none) :=
  checkPath_eq_of_cons _ path _ _ (includePaths_Prepare conf fs rand shareDir)

/-- C2, amended, at a path under the process root and under an exclude path:
it is rejected. -/
theorem checkPath_permits_iff_raw_witness :
    (checkPath (Prepare (Init (demoConf ["/cfg/proc/skip".toList])
        { cwd := "/".toList, entries := demoDirs } []) "/share".toList)
        "/cfg/proc/skip/x.toml".toList).1 = false
    ∧ (checkPath (Prepare (Init (demoConf ["/cfg/proc/skip".toList])
        { cwd := "/".toList, entries := demoDirs } []) "/share".toList)
        "/cfg/proc/skip/x.toml".toList).2 ≠ none :=
  (checkPath_permits_iff_raw (demoConf ["/cfg/proc/skip".toList])
    { cwd := "/".toList, entries := demoDirs } [] "/share".toList
    "/cfg/proc/skip/x.toml".toList).2 (by decide)

/-! ## What the operations leave alone -/

theorem Quiet.stay (f : CMFilter) : Quiet f f := ⟨rfl, rfl, Or.inl rfl⟩

theorem Quiet.then {f g h : CMFilter} (a : Quiet f g) (b : Quiet g h) : Quiet f h := by
  refine ⟨b.1.trans a.1, b.2.1.trans a.2.1, ?_⟩
  rcases b.2.2 with e | e
  · rcases a.2.2 with e2 | e2
    · exact Or.inl (e.trans e2)
    · exact Or.inr (e.trans e2)
  · exact Or.inr e

theorem Quiet_setStatus_ERROR (f : CMFilter) : Quiet f (setStatus f ERROR) :=
  ⟨rfl, rfl, Or.inr rfl⟩

theorem Quiet_setFileName (f : CMFilter) (n : Str) : Quiet f (setFileName f n) :=
  ⟨rfl, rfl, Or.inl rfl⟩

theorem Quiet_mkdirIfMissing (f : CMFilter) (dir : Str) : Quiet f (mkdirIfMissing f dir) := by
  unfold mkdirIfMissing
  split
  · split
    · exact ⟨rfl, rfl, Or.inl rfl⟩
    · exact Quiet.stay f
  · exact Quiet.stay f

theorem Quiet_randRead (f : CMFilter) : Quiet f (randRead f).2 := by
  unfold randRead
  split
  · exact Quiet.stay f
  · exact ⟨rfl, rfl, Or.inl rfl⟩

theorem Quiet_scanFiles (ext : Externals) (payload : Str) (cfi : ConfigFileInfo) (dir : Str) :
    ∀ (files : List Str) (s : Scan),
      Quiet s.f (scanFiles ext payload cfi dir files s).filter := by
  intro files
  induction files with
  | nil => intro s; simp [scanFiles, ScanResult.filter, Quiet.stay]
  | cons name rest ih =>
    intro s
    unfold scanFiles
    simp only
    split
    · exact Quiet.stay _
    · split
      · split
        · exact (Quiet_setFileName _ _).then (Quiet_setStatus_ERROR _)
        · exact (Quiet_setFileName _ _).then (ih _)
      · exact ih _

theorem Quiet_addConfig (ext : Externals) (f : CMFilter) (payload : Str) (cfi : ConfigFileInfo) :
    Quiet f (Run.world Prod.fst (addConfig ext f payload cfi)) := by
  unfold addConfig
  split
  · exact Quiet_setStatus_ERROR f
  · rename_i dir _
    simp only
    have h0 : Quiet f (randRead (mkdirIfMissing f dir)).2 :=
      (Quiet_mkdirIfMissing f dir).then (Quiet_randRead _)
    have h1 := Quiet_scanFiles ext payload cfi dir
      ((randRead (mkdirIfMissing f dir)).2.fs.ReadDir dir)
      { f := (randRead (mkdirIfMissing f dir)).2, dup := false,
        confFile := Join [dir, genName (randRead (mkdirIfMissing f dir)).1], buffer := [] }
    split
    · rename_i f2 heq
      rw [heq] at h1
      exact h0.then h1
    · rename_i f2 result heq
      rw [heq] at h1
      exact h0.then h1
    · rename_i s heq
      rw [heq] at h1
      split
      · exact (h0.then h1).then (Quiet_setStatus_ERROR _)
      · exact (h0.then h1).then ⟨rfl, rfl, Or.inl rfl⟩

theorem Quiet_removeConfig (ext : Externals) (f : CMFilter) (fName : Str) :
    Quiet f (removeConfig ext f fName).1 := by
  unfold removeConfig
  simp only
  split
  · exact (Quiet_setFileName _ _).then (Quiet_setStatus_ERROR _)
  · split
    · exact (Quiet_setFileName _ _).then (Quiet_setStatus_ERROR _)
    · split
      · exact (Quiet_setFileName _ _).then (Quiet_setStatus_ERROR _)
      · split
        · exact (Quiet_setFileName _ _).then (Quiet_setStatus_ERROR _)
        · split
          · split
            · split
              · exact ⟨rfl, rfl, Or.inl rfl⟩
              · exact ⟨rfl, rfl, Or.inl rfl⟩
            · exact ⟨rfl, rfl, Or.inr rfl⟩
          · exact ⟨rfl, rfl, Or.inl rfl⟩

/-! ## Every batch sent is a good batch -/

theorem Extends.same (f : CMFilter) : Extends f.batchChan f :=
  ⟨[], by simp, by simp⟩

theorem Extends.more {base : List CMBatch} {f g : CMFilter}
    (a : Extends base f) (b : Extends f.batchChan g) : Extends base g := by
  obtain ⟨n1, e1, h1⟩ := a
  obtain ⟨n2, e2, h2⟩ := b
  refine ⟨n1 ++ n2, by rw [e2, e1, List.append_assoc], ?_⟩
  intro x hx
  rcases List.mem_append.mp hx with h | h
  · exact h1 x h
  · exact h2 x h

theorem good_of_Quiet {base : List CMBatch} {f g : CMFilter} (q : Quiet f g)
    (hs : GoodStatus f) (he : Extends base f) : GoodStatus g ∧ Extends base g := by
  constructor
  · rcases q.2.2 with e | e
    · unfold GoodStatus; rw [e]; exact hs
    · exact Or.inr e
  · obtain ⟨n, e, h⟩ := he
    exact ⟨n, by rw [q.1, e], h⟩

theorem good_sendIfAny {base : List CMBatch} {f : CMFilter}
    (hs : GoodStatus f) (he : Extends base f) :
    GoodStatus (sendIfAny f) ∧ Extends base (sendIfAny f) := by
  unfold sendIfAny
  split
  · rename_i hne
    refine ⟨hs, ?_⟩
    obtain ⟨n, e, h⟩ := he
    refine ⟨n ++ [{ queueCursor := f.queueCursor, count := f.count, batch := f.outBatch,
                    confInfo := f.confInfo }], ?_, ?_⟩
    · simp [sendBatch, e]
    · intro x hx
      rcases List.mem_append.mp hx with h1 | h1
      · exact h x h1
      · rw [List.mem_singleton] at h1
        subst h1
        exact ⟨hs, hne⟩
  · exact ⟨hs, he⟩

theorem good_sendFile (ext : Externals) {base : List CMBatch} (l : Listing) (fName : Str)
    (hs : GoodStatus l.f) (he : Extends base l.f) :
    GoodStatus (Run.world Listing.f (sendFile ext l fName))
      ∧ Extends base (Run.world Listing.f (sendFile ext l fName)) := by
  unfold sendFile
  simp only
  split
  · exact ⟨hs, he⟩
  · simp only [Run.world]
    apply good_sendIfAny
    · exact Or.inl rfl
    · obtain ⟨n, e, h⟩ := he
      exact ⟨n, e, h⟩

theorem good_sendFiles (ext : Externals) {base : List CMBatch} :
    ∀ (files : List Str) (l : Listing), GoodStatus l.f → Extends base l.f →
      GoodStatus (Run.world Listing.f (sendFiles ext files l))
        ∧ Extends base (Run.world Listing.f (sendFiles ext files l)) := by
  intro files
  induction files with
  | nil => intro l hs he; exact ⟨hs, he⟩
  | cons fName rest ih =>
    intro l hs he
    unfold sendFiles
    split
    · exact ih l hs he
    · split
      · exact ih l hs he
      · have h := good_sendFile ext l fName hs he
        split
        · rename_i l1 heq
          rw [heq] at h
          exact ih l1 h.1 h.2
        · rename_i f1 heq
          rw [heq] at h
          exact h

theorem good_sendConfigContents (ext : Externals) {base : List CMBatch} (f : CMFilter)
    (configPath : Str) (hs : GoodStatus f) (he : Extends base f) :
    GoodStatus (Run.world Prod.fst (sendConfigContents ext f configPath))
      ∧ Extends base (Run.world Prod.fst (sendConfigContents ext f configPath)) := by
  unfold sendConfigContents
  split
  · exact ⟨hs, he⟩
  · have h := good_sendFiles ext (f.fs.Walk configPath)
      { f := f, pluginType := [], sect := Primitive.zero } hs he
    split
    · rename_i l heq
      rw [heq] at h
      exact h
    · rename_i f1 heq
      rw [heq] at h
      exact h
  · split
    · exact ⟨hs, he⟩
    · split
      · exact ⟨hs, he⟩
      · have h := good_sendFile ext { f := f, pluginType := [], sect := Primitive.zero }
          configPath hs he
        split
        · rename_i l heq
          rw [heq] at h
          exact h
        · rename_i f1 heq
          rw [heq] at h
          exact h

theorem good_returnLoop (ext : Externals) {base : List CMBatch} :
    ∀ (paths : List Str) (f : CMFilter), GoodStatus f → Extends base f →
      GoodStatus (Run.world id (returnLoop ext paths f))
        ∧ Extends base (Run.world id (returnLoop ext paths f)) := by
  intro paths
  induction paths with
  | nil => intro f hs he; exact ⟨hs, he⟩
  | cons p rest ih =>
    intro f hs he
    have h := good_sendConfigContents ext f p hs he
    unfold returnLoop
    split
    · rename_i f1 heq
      rw [heq] at h
      exact h
    · rename_i f1 e heq
      rw [heq] at h
      exact ⟨h.1, h.2⟩
    · rename_i f1 heq
      rw [heq] at h
      exact ih f1 h.1 h.2

theorem Quiet_addSections (ext : Externals) (payload : Str) :
    ∀ (sections : List (Str × Primitive)) (s : CMFilter × Str),
      Quiet s.1 (Run.world Prod.fst (addSections ext payload sections s)) := by
  intro sections
  induction sections with
  | nil => intro s; exact Quiet.stay _
  | cons sec rest ih =>
    intro s
    obtain ⟨name, conf⟩ := sec
    unfold addSections
    split
    · exact Quiet.stay _
    · rename_i info _
      simp only
      split
      · have h := Quiet_addConfig ext
          { s.1 with confInfo := setInfo s.1.confInfo info } payload
          (setInfo s.1.confInfo info)
        split
        · rename_i r heq
          rw [heq] at h
          exact Quiet.then (Quiet.then ⟨rfl, rfl, Or.inl rfl⟩ h) (ih r)
        · rename_i f2 heq
          rw [heq] at h
          exact Quiet.then ⟨rfl, rfl, Or.inl rfl⟩ h
      · refine Quiet.then ?_ (ih _)
        exact ⟨rfl, rfl, Or.inl rfl⟩

theorem Quiet_addBranch (ext : Externals) (f : CMFilter) (outBytes : Str) (msg : Message) :
    Quiet f (Run.world Prod.fst (addBranch ext f outBytes msg)) := by
  unfold addBranch
  simp only
  refine Quiet.then ?_ (Quiet_addSections ext _ _ _)
  split
  · exact ⟨rfl, rfl, Or.inl rfl⟩
  · exact Quiet.stay f

theorem Quiet_deleteBranch (ext : Externals) (f : CMFilter) (outBytes : Str) (msg : Message) :
    Quiet f (deleteBranch ext f outBytes msg).1 := by
  unfold deleteBranch
  split
  · exact Quiet_removeConfig ext f _
  · exact Quiet.stay f
  · exact Quiet_setStatus_ERROR f

theorem good_switchAction (ext : Externals) {base : List CMBatch} (f : CMFilter)
    (outBytes : Str) (pack : MsgPack) (hs : GoodStatus f) (he : Extends base f) :
    GoodStatus (Run.world Prod.fst (switchAction ext f outBytes pack))
      ∧ Extends base (Run.world Prod.fst (switchAction ext f outBytes pack)) := by
  unfold switchAction
  split
  · split
    · exact good_of_Quiet (Quiet_addBranch ext f outBytes _) hs he
    · split
      · exact good_of_Quiet (Quiet_deleteBranch ext f outBytes _) hs he
      · split
        · unfold returnBranch
          simp only
          have h : GoodStatus (Run.world id (returnLoop ext f.includePaths
                { f with queueCursor := pack.queueCursor }))
              ∧ Extends base (Run.world id (returnLoop ext f.includePaths
                { f with queueCursor := pack.queueCursor })) :=
            good_returnLoop ext f.includePaths { f with queueCursor := pack.queueCursor } hs
              (by obtain ⟨n, e, h⟩ := he; exact ⟨n, e, h⟩)
          split
          · rename_i f2 heq
            rw [heq] at h
            exact h
          · rename_i f2 heq
            rw [heq] at h
            exact h
        · exact ⟨hs, he⟩
  · exact ⟨hs, he⟩

theorem Extends_batchSenderStep (ext : Externals) (s : Sender) (pack : MsgPack) :
    Extends s.f.batchChan (batchSenderStep ext s pack).f := by
  unfold batchSenderStep
  split
  · exact Extends.same _
  · simp only
    have h : GoodStatus (Run.world Prod.fst (switchAction ext
          { s.f with msgLoopCount := pack.MsgLoopCount, confInfo := freshInfo } s.outBytes pack))
        ∧ Extends s.f.batchChan (Run.world Prod.fst (switchAction ext
          { s.f with msgLoopCount := pack.MsgLoopCount, confInfo := freshInfo } s.outBytes
            pack)) :=
      good_switchAction ext _ s.outBytes pack (Or.inl rfl) ⟨[], by simp, by simp⟩
    split
    · rename_i f heq
      rw [heq] at h
      obtain ⟨n, e, hn⟩ := h.2
      exact ⟨n, e, hn⟩
    · rename_i r heq
      rw [heq] at h
      refine (good_sendIfAny ?_ ?_).2
      · exact h.1
      · obtain ⟨n, e, hn⟩ := h.2
        exact ⟨n, e, hn⟩

theorem Extends_foldl (ext : Externals) :
    ∀ (packs : List MsgPack) (s : Sender),
      Extends s.f.batchChan (packs.foldl (batchSenderStep ext) s).f := by
  intro packs
  induction packs with
  | nil => intro s; exact Extends.same _
  | cons p rest ih =>
    intro s
    rw [List.foldl_cons]
    exact (Extends_batchSenderStep ext s p).more (ih _)

/-- C9: for every dispatcher state and every sequence of requests (add,
delete, return or unrecognized), the batches handed to the committer while the
requests are processed all have a status that is exactly `OK` or `ERROR` and a
payload that is not empty; so the payload is not empty whenever the status is
`ERROR`. -/
theorem batches_status_and_payload (ext : Externals) (s : Sender) (packs : List MsgPack) :
    ∃ new, (packs.foldl (batchSenderStep ext) s).f.batchChan = s.f.batchChan ++ new
      ∧ ∀ b ∈ new, (b.confInfo.status = OK ∨ b.confInfo.status = ERROR)
          ∧ (b.confInfo.status = ERROR → b.batch ≠ []) := by
  obtain ⟨new, e, h⟩ := Extends_foldl ext packs s
  exact ⟨new, e, fun b hb => ⟨(h b hb).1, fun _ => (h b hb).2⟩⟩

/-- C9 on a delete request without a file name: one batch is sent, its status
is `ERROR` and its payload is not empty. -/
theorem batches_status_and_payload_witness :
    ∃ new, ([demoPack "delete".toList [] []].foldl (batchSenderStep demoExt)
        ⟨demoFilter [] [], []⟩).f.batchChan = (demoFilter [] []).batchChan ++ new
      ∧ ∀ b ∈ new, (b.confInfo.status = OK ∨ b.confInfo.status = ERROR)
          ∧ (b.confInfo.status = ERROR → b.batch ≠ []) :=
  batches_status_and_payload demoExt ⟨demoFilter [] [], []⟩ [demoPack "delete".toList [] []]

/-! ## Add: the duplicate check -/

theorem scanSections_eq (ext : Externals) (f : CMFilter) (cfi : ConfigFileInfo) :
    ∀ (sections : List (Str × Primitive)) (dup : Bool),
      allReadable ext f.confInfo.ticker sections = true →
      scanSections ext f cfi sections dup
        = some (dup || declaresSame ext f.confInfo.ticker cfi.confName cfi.ticker sections) := by
  intro sections
  induction sections with
  | nil => intro dup _; simp [scanSections, declaresSame]
  | cons sec rest ih =>
    intro dup hall
    obtain ⟨name, conf⟩ := sec
    unfold allReadable at hall
    rw [List.all_cons, Bool.and_eq_true] at hall
    obtain ⟨h1, h2⟩ := hall
    simp only at h1
    obtain ⟨info, hinfo⟩ := Option.isSome_iff_exists.mp h1
    unfold scanSections
    unfold getConfigFileInfo
    rw [hinfo]
    simp only
    rw [ih _ h2]
    unfold declaresSame
    rw [List.any_cons]
    simp only [hinfo]
    by_cases h : cfi.confName = info.1 ∧ cfi.ticker = info.2.2.2
    · rw [if_pos h, decide_eq_true h]
      simp
    · rw [if_neg h, decide_eq_false h]
      simp

theorem scanFiles_of_no_duplicate (ext : Externals) (payload : Str) (cfi : ConfigFileInfo)
    (dir : Str) :
    ∀ (files : List Str) (s : Scan), s.dup = false →
      (∀ name ∈ files, allReadable ext s.f.confInfo.ticker
          (ext.decode (ReplaceEnvsFile ext s.f.fs (Join [dir, name]))) = true) →
      (∀ name ∈ files, isDuplicate ext s.f.fs s.f.confInfo.ticker cfi.confName cfi.ticker
          payload (Join [dir, name]) = false) →
      scanFiles ext payload cfi dir files s = ScanResult.finished s := by
  intro files
  induction files with
  | nil => intro s _ _ _; rfl
  | cons name rest ih =>
    intro s hdup hread hall
    have h1 := hall name (List.mem_cons_self _ _)
    unfold isDuplicate at h1
    rw [Bool.or_eq_false_iff] at h1
    obtain ⟨hpay, hdecl⟩ := h1
    have hpay2 : payload ≠ ReplaceEnvsFile ext s.f.fs (Join [dir, name]) := by simpa using hpay
    unfold scanFiles
    simp only
    rw [scanSections_eq _ _ _ _ _ (hread name (List.mem_cons_self _ _)), hdup, hdecl]
    simp only [Bool.or_self, Bool.false_eq_true, or_false, hpay2, if_false]
    have : ({ s with dup := false } : Scan) = s := by
      cases s; simp_all
    rw [this]
    exact ih s hdup (fun n hn => hread n (List.mem_cons_of_mem _ hn))
      (fun n hn => hall n (List.mem_cons_of_mem _ hn))

theorem scanFiles_of_duplicate (ext : Externals) (payload : Str) (cfi : ConfigFileInfo)
    (dir : Str) (hov : cfi.overwrite = false) :
    ∀ (files : List Str) (s : Scan), s.dup = false →
      (∀ name ∈ files, allReadable ext s.f.confInfo.ticker
          (ext.decode (ReplaceEnvsFile ext s.f.fs (Join [dir, name]))) = true) →
      (∃ name ∈ files, isDuplicate ext s.f.fs s.f.confInfo.ticker cfi.confName cfi.ticker
          payload (Join [dir, name]) = true) →
      ∃ name ∈ files, isDuplicate ext s.f.fs s.f.confInfo.ticker cfi.confName cfi.ticker
          payload (Join [dir, name]) = true ∧
        scanFiles ext payload cfi dir files s
          = ScanResult.returned (setStatus (setFileName s.f (Join [dir, name])) ERROR)
              (duplicateMessage (Join [dir, name]) (ReplaceEnvsFile ext s.f.fs (Join [dir, name]))) := by
  intro files
  induction files with
  | nil => intro s _ _ h; obtain ⟨n, hn, _⟩ := h; cases hn
  | cons name rest ih =>
    intro s hdup hread hex
    have hr := hread name (List.mem_cons_self _ _)
    cases hd : isDuplicate ext s.f.fs s.f.confInfo.ticker cfi.confName cfi.ticker
        payload (Join [dir, name]) with
    | true =>
      refine ⟨name, List.mem_cons_self _ _, hd, ?_⟩
      unfold isDuplicate at hd
      unfold scanFiles
      simp only
      rw [scanSections_eq _ _ _ _ _ hr, hdup]
      simp only [Bool.false_or]
      rw [Bool.or_eq_true, decide_eq_true_eq] at hd
      rw [if_pos hd, if_pos hov]
    | false =>
      have hrest : ∃ n ∈ rest, isDuplicate ext s.f.fs s.f.confInfo.ticker cfi.confName
          cfi.ticker payload (Join [dir, n]) = true := by
        obtain ⟨n, hn, hn2⟩ := hex
        rcases List.mem_cons.mp hn with e | e
        · subst e; rw [hd] at hn2; cases hn2
        · exact ⟨n, e, hn2⟩
      obtain ⟨n, hn, hn2, hn3⟩ := ih s hdup
        (fun m hm => hread m (List.mem_cons_of_mem _ hm)) hrest
      refine ⟨n, List.mem_cons_of_mem _ hn, hn2, ?_⟩
      unfold isDuplicate at hd
      rw [Bool.or_eq_false_iff] at hd
      obtain ⟨hpay, hdecl⟩ := hd
      have hpay2 : payload ≠ ReplaceEnvsFile ext s.f.fs (Join [dir, name]) := by simpa using hpay
      unfold scanFiles
      simp only
      rw [scanSections_eq _ _ _ _ _ hr, hdup, hdecl]
      simp only [Bool.or_self, Bool.false_eq_true, or_false, hpay2, if_false]
      have : ({ s with dup := false } : Scan) = s := by
        cases s; simp_all
      rw [this]
      exact hn3

/-! ## Add without overwrite, on duplicates -/

theorem find_of_mem_ReadDir (fs : FS) (dir name : Str) (h : name ∈ fs.ReadDir dir) :
    fs.find dir = Except.ok Node.dir := by
  unfold FS.ReadDir at h
  unfold FS.find
  split at h
  · cases h
  · rename_i k hk
    split at h
    · rename_i hd
      rw [hd]
    · cases h

theorem mkdirIfMissing_of_find (f : CMFilter) (dir : Str) (n : Node)
    (h : f.fs.find dir = Except.ok n) : mkdirIfMissing f dir = f := by
  unfold mkdirIfMissing
  rw [h]

theorem randRead_fs (f : CMFilter) : (randRead f).2.fs = f.fs := by
  unfold randRead; split <;> rfl

theorem randRead_conf (f : CMFilter) : (randRead f).2.conf = f.conf := by
  unfold randRead; split <;> rfl

theorem randRead_confInfo (f : CMFilter) : (randRead f).2.confInfo = f.confInfo := by
  unfold randRead; split <;> rfl

theorem randRead_panicked (f : CMFilter) : (randRead f).2.panicked = f.panicked := by
  unfold randRead; split <;> rfl

theorem duplicateMessage_ne_nil (a b : Str) : duplicateMessage a b ≠ [] := by
  unfold duplicateMessage
  intro h
  have h1 := congrArg List.length h
  simp at h1

theorem addConfig_of_duplicate (ext : Externals) (f : CMFilter) (payload : Str)
    (cfi : ConfigFileInfo) (dir : Str) (hov : cfi.overwrite = false)
    (hdir : addDir f.conf cfi.confType cfi.ticker = some dir)
    (hread : dirReadable ext f.fs f.confInfo.ticker dir)
    (hex : ∃ name ∈ f.fs.ReadDir dir,
      isDuplicate ext f.fs f.confInfo.ticker cfi.confName cfi.ticker payload
        (Join [dir, name]) = true) :
    ∃ r, addConfig ext f payload cfi = Run.done r
      ∧ r.1.fs = f.fs ∧ r.1.conf = f.conf
      ∧ r.1.confInfo.overwrite = f.confInfo.overwrite
      ∧ r.1.confInfo.status = ERROR ∧ r.2 ≠ [] := by
  have hex0 := hex
  obtain ⟨name0, hname0, _⟩ := hex0
  have hstat := find_of_mem_ReadDir f.fs dir name0 hname0
  have hex2 : ∃ name ∈ (randRead f).2.fs.ReadDir dir,
      isDuplicate ext (randRead f).2.fs (randRead f).2.confInfo.ticker cfi.confName cfi.ticker
        payload (Join [dir, name]) = true := by
    rw [randRead_fs, randRead_confInfo]
    exact hex
  have hread2 : ∀ name ∈ (randRead f).2.fs.ReadDir dir,
      allReadable ext (randRead f).2.confInfo.ticker
        (ext.decode (ReplaceEnvsFile ext (randRead f).2.fs (Join [dir, name]))) = true := by
    rw [randRead_fs, randRead_confInfo]
    exact hread
  obtain ⟨name, _, _, hscan⟩ := scanFiles_of_duplicate ext payload cfi dir hov
    ((randRead f).2.fs.ReadDir dir)
    { f := (randRead f).2, dup := false, confFile := Join [dir, genName (randRead f).1],
      buffer := [] } rfl hread2 hex2
  unfold addConfig
  rw [hdir]
  simp only
  rw [mkdirIfMissing_of_find f dir _ hstat, hscan]
  refine ⟨_, rfl, ?_, ?_, ?_, ?_, ?_⟩
  · simp only [setStatus, setFileName, randRead_fs]
  · simp only [setStatus, setFileName, randRead_conf]
  · simp only [setStatus, setFileName, randRead_confInfo]
  · rfl
  · exact duplicateMessage_ne_nil _ _

theorem addSections_of_duplicates (ext : Externals) (payload : Str) (fs0 : FS)
    (conf0 : CMFilterConfig) :
    ∀ (sections : List (Str × Primitive)) (s : CMFilter × Str),
      s.1.fs = fs0 → s.1.conf = conf0 → s.1.confInfo.overwrite = false →
      (∀ sec ∈ sections, ∀ t : Int, HasDuplicate ext fs0 conf0 payload sec t) →
      ∃ r, addSections ext payload sections s = Run.done r
        ∧ r.1.fs = fs0
        ∧ (((s.1.confInfo.status = ERROR ∧ s.2 ≠ [])
              ∨ ∃ sec ∈ sections, ∀ t : Int, Eligible ext conf0 sec t) →
            r.1.confInfo.status = ERROR ∧ r.2 ≠ []) := by
  intro sections
  induction sections with
  | nil =>
    intro s hfs _ _ _
    refine ⟨s, rfl, hfs, ?_⟩
    intro h
    rcases h with h | ⟨sec, hsec, _⟩
    · exact h
    · cases hsec
  | cons sec rest ih =>
    intro s hfs hconf hov hdup
    obtain ⟨name, conf⟩ := sec
    have hrest : ∀ sec ∈ rest, ∀ t : Int, HasDuplicate ext fs0 conf0 payload sec t :=
      fun sec hsec => hdup sec (List.mem_cons_of_mem _ hsec)
    obtain ⟨info, hinfo, himp⟩ := hdup (name, conf) (List.mem_cons_self _ _) s.1.confInfo.ticker
    simp only at hinfo
    unfold addSections
    unfold getConfigFileInfo
    rw [hinfo]
    simp only
    by_cases helig : info.2.1 ∈ conf0.IncludeTypes
    · have helig2 : (setInfo s.1.confInfo info).confType ∈ s.1.conf.IncludeTypes := by
        rw [hconf]; exact helig
      rw [if_pos helig2]
      obtain ⟨dir, hdir, hread, hex⟩ := himp helig
      obtain ⟨r, hr, a1, a2, a3, a4, a5⟩ := addConfig_of_duplicate ext
        { s.1 with confInfo := setInfo s.1.confInfo info }
        payload (setInfo s.1.confInfo info) dir
        (by simpa [setInfo] using hov)
        (by simpa [setInfo, hconf] using hdir)
        (by simpa [setInfo, hfs] using hread)
        (by simpa [setInfo, hfs] using hex)
      rw [hr]
      simp only
      obtain ⟨r2, hr2, b1, b2⟩ := ih r (by rw [a1]; exact hfs) (by rw [a2]; exact hconf)
        (by rw [a3]; simpa [setInfo] using hov) hrest
      exact ⟨r2, hr2, b1, fun _ => b2 (Or.inl ⟨a4, a5⟩)⟩
    · have helig2 : ¬ (setInfo s.1.confInfo info).confType ∈ s.1.conf.IncludeTypes := by
        rw [hconf]; exact helig
      rw [if_neg helig2]
      obtain ⟨r2, hr2, b1, b2⟩ := ih
        ({ s.1 with confInfo := setInfo s.1.confInfo info }, s.2)
        hfs hconf (by simpa [setInfo] using hov) hrest
      refine ⟨r2, hr2, b1, ?_⟩
      intro h
      apply b2
      rcases h with h | ⟨sec, hsec, helig3⟩
      · exact Or.inl (by simpa [setInfo] using h)
      · rcases List.mem_cons.mp hsec with e | e
        · subst e
          obtain ⟨info2, hinfo2, hin⟩ := helig3 s.1.confInfo.ticker
          simp only at hinfo2
          rw [hinfo] at hinfo2
          injection hinfo2 with hinfo2
          subst hinfo2
          exact absurd hin helig
        · exact Or.inr ⟨sec, e, helig3⟩

theorem addBranch_of_duplicates (ext : Externals) (f : CMFilter) (outBytes : Str) (msg : Message)
    (hfresh : f.confInfo.overwrite = false)
    (hov : ∀ v, GetFieldValue msg.Fields "Overwrite".toList = some (FieldValue.string v) →
      ParseBool v = false)
    (hsome : ∃ sec ∈ ext.decode msg.Payload, ∀ t : Int, Eligible ext f.conf sec t)
    (hdup : ∀ sec ∈ ext.decode msg.Payload, ∀ t : Int,
      HasDuplicate ext f.fs f.conf msg.Payload sec t) :
    ∃ r, addBranch ext f outBytes msg = Run.done r
      ∧ r.1.fs = f.fs ∧ r.1.confInfo.status = ERROR ∧ r.2 ≠ [] := by
  have key : ∀ g : CMFilter, g.fs = f.fs → g.conf = f.conf → g.confInfo.overwrite = false →
      ∃ r, addSections ext msg.Payload (ext.decode msg.Payload) (g, outBytes) = Run.done r
        ∧ r.1.fs = f.fs ∧ r.1.confInfo.status = ERROR ∧ r.2 ≠ [] := by
    intro g h1 h2 h3
    obtain ⟨r, hr, b1, b2⟩ := addSections_of_duplicates ext msg.Payload f.fs f.conf
      (ext.decode msg.Payload) (g, outBytes) h1 h2 h3 hdup
    have h4 := b2 (Or.inr hsome)
    exact ⟨r, hr, b1, h4.1, h4.2⟩
  unfold addBranch
  simp only
  split
  · rename_i value heq
    exact key _ rfl rfl (hov value heq)
  · exact key _ rfl rfl hfresh

theorem sendIfAny_append (g : CMFilter) (out cursor : Str) (h : out ≠ []) :
    (sendIfAny { g with outBatch := g.outBatch ++ out, queueCursor := cursor,
                        count := g.count + 1 }).fs = g.fs
    ∧ (sendIfAny { g with outBatch := g.outBatch ++ out, queueCursor := cursor,
                          count := g.count + 1 }).confInfo = g.confInfo
    ∧ (sendIfAny { g with outBatch := g.outBatch ++ out, queueCursor := cursor,
                          count := g.count + 1 }).panicked = g.panicked
    ∧ ∃ b, (sendIfAny { g with outBatch := g.outBatch ++ out, queueCursor := cursor,
                               count := g.count + 1 }).batchChan = g.batchChan ++ [b]
        ∧ b.confInfo = g.confInfo ∧ b.batch = g.outBatch ++ out := by
  have hne : g.outBatch ++ out ≠ [] := fun e => h (List.append_eq_nil.mp e).2
  unfold sendIfAny
  simp only
  rw [if_pos hne]
  simp only [sendBatch]
  exact ⟨trivial, trivial, trivial, ⟨_, rfl, rfl, rfl⟩⟩

/-- C3, amended: for every add request with overwrite not requested and at
least one eligible section, processed by a live dispatcher: if every section of
the payload has a plugin maker and, for every eligible section, every section
of every file in the target directory of that section has a plugin maker and
that directory holds a file that is byte-identical to the payload or declares a
section with that section's name and ticker, then processing the request
leaves the filesystem as it was, and the status, also that of the one batch
sent, is `ERROR`. -/
theorem add_without_overwrite_on_duplicates (ext : Externals) (s : Sender) (pack : MsgPack)
    (hlive : s.f.panicked = false)
    (hact : GetFieldValue pack.Message.Fields "Action".toList
      = some (FieldValue.string "add".toList))
    (hov : ∀ v, GetFieldValue pack.Message.Fields "Overwrite".toList
      = some (FieldValue.string v) → ParseBool v = false)
    (hsome : ∃ sec ∈ ext.decode pack.Message.Payload, ∀ t : Int, Eligible ext s.f.conf sec t)
    (hdup : ∀ sec ∈ ext.decode pack.Message.Payload, ∀ t : Int,
      HasDuplicate ext s.f.fs s.f.conf pack.Message.Payload sec t) :
    (batchSenderStep ext s pack).f.panicked = false
    ∧ (batchSenderStep ext s pack).f.fs = s.f.fs
    ∧ (batchSenderStep ext s pack).f.confInfo.status = ERROR
    ∧ ∃ b, (batchSenderStep ext s pack).f.batchChan = s.f.batchChan ++ [b]
        ∧ b.confInfo.status = ERROR ∧ b.batch ≠ [] := by
  obtain ⟨r, hr, h1, h2, h3⟩ := addBranch_of_duplicates ext
    { s.f with msgLoopCount := pack.MsgLoopCount, confInfo := freshInfo } s.outBytes pack.Message
    rfl hov hsome hdup
  have hq := Quiet_addBranch ext
    { s.f with msgLoopCount := pack.MsgLoopCount, confInfo := freshInfo } s.outBytes pack.Message
  rw [hr] at hq
  have hsw : switchAction ext
      { s.f with msgLoopCount := pack.MsgLoopCount, confInfo := freshInfo } s.outBytes pack
      = Run.done r := by
    unfold switchAction
    rw [hact]
    simp only [if_true]
    exact hr
  unfold batchSenderStep
  rw [if_neg (by rw [hlive]; decide)]
  simp only
  rw [hsw]
  simp only
  obtain ⟨e1, e2, e0, b, e3, e4, e5⟩ := sendIfAny_append r.1 r.2 pack.queueCursor h3
  refine ⟨?_, e1.trans h1, by rw [e2]; exact h2, b, ?_, by rw [e4]; exact h2, ?_⟩
  · rw [e0]
    exact hq.2.1.trans hlive
  · rw [e3]
    exact congrArg (fun x => x ++ [b]) hq.1
  · rw [e5]
    exact fun e => h3 (List.append_eq_nil.mp e).2

theorem dupPack_decode :
    demoExt.decode dupPack.Message.Payload
      = [("l".toList, Primitive.table "type = \"LogstreamerInput\"\nx = 2\n".toList)] := by
  decide

theorem dupPack_info (t : Int) :
    sectionInfo demoExt t "l".toList (Primitive.table "type = \"LogstreamerInput\"\nx = 2\n".toList)
      = some ("l".toList, "LogstreamerInput".toList, "Input".toList, 0) := by
  have hm : demoExt.NewPluginMaker "l".toList
      (Primitive.table "type = \"LogstreamerInput\"\nx = 2\n".toList)
      = some { Name := "l".toList, Typ := "LogstreamerInput".toList, Category := "Input".toList,
               Ticker := some 0 } := by decide
  unfold sectionInfo
  rw [hm]
  simp only
  rw [if_pos (by decide), if_pos (by decide)]

/-- C3, amended, on a request that meets its conditions: the log-stream
directory holds `a.toml` with a section `l`, the payload declares `l` again. -/
theorem add_without_overwrite_on_duplicates_witness :
    (batchSenderStep demoExt dupSender dupPack).f.panicked = false
    ∧ (batchSenderStep demoExt dupSender dupPack).f.fs = dupSender.f.fs
    ∧ (batchSenderStep demoExt dupSender dupPack).f.confInfo.status = ERROR
    ∧ ∃ b, (batchSenderStep demoExt dupSender dupPack).f.batchChan
          = dupSender.f.batchChan ++ [b]
        ∧ b.confInfo.status = ERROR ∧ b.batch ≠ [] :=
  add_without_overwrite_on_duplicates demoExt dupSender dupPack (by decide) (by decide)
    (by
      intro v h
      have hn : GetFieldValue dupPack.Message.Fields "Overwrite".toList = none := by decide
      rw [hn] at h
      cases h)
    ⟨("l".toList, Primitive.table "type = \"LogstreamerInput\"\nx = 2\n".toList), by decide,
      fun t => ⟨_, dupPack_info t, by decide⟩⟩
    (by
      intro sec hsec t
      rw [dupPack_decode, List.mem_singleton] at hsec
      subst hsec
      refine ⟨_, dupPack_info t, fun _ => ?_⟩
      refine ⟨"/cfg/logs".toList, by decide, ?_, "a.toml".toList, by decide, by decide⟩
      unfold dirReadable
      decide)

/-! ## Return -/

theorem sectionInfo_isSome (ext : Externals) (t t0 : Int) (name : Str) (conf : Primitive) :
    (sectionInfo ext t name conf).isSome = (sectionInfo ext t0 name conf).isSome := by
  unfold sectionInfo
  split
  · rfl
  · split
    · split
      · split
        · rfl
        · rfl
      · rfl
    · rfl

theorem selectSection_cur (unparsed : List (Str × Primitive)) :
    ∀ (types : List Str) (c1 c2 : Str × Primitive), types ≠ [] →
      selectSection unparsed types c1 = selectSection unparsed types c2 := by
  intro types
  induction types with
  | nil => intro _ _ h; exact absurd rfl h
  | cons t rest ih =>
    intro c1 c2 _
    unfold selectSection
    split
    · rfl
    · rfl

theorem selectSection_start (unparsed : List (Str × Primitive)) (types : List Str)
    (pt : Str) (sect : Primitive)
    (h : types = [] → pt = [] ∧ sect = Primitive.zero) :
    selectSection unparsed types (pt, sect)
      = selectSection unparsed types ([], Primitive.zero) := by
  by_cases ht : types = []
  · obtain ⟨h1, h2⟩ := h ht
    rw [h1, h2]
  · exact selectSection_cur unparsed types _ _ ht

theorem selectSection_nil (unparsed : List (Str × Primitive)) (c : Str × Primitive) :
    selectSection unparsed [] c = c := by
  unfold selectSection
  rfl

theorem sendFile_spec (ext : Externals) (l : Listing) (p : Str) (hbuf : l.f.outBatch = [])
    (hcur : l.f.conf.IncludeTypes = [] → l.pluginType = [] ∧ l.sect = Primitive.zero)
    (hinfo : ∀ t : Int, (fileInfo ext l.f.fs l.f.conf p t).isSome = true) :
    ∃ l1, sendFile ext l p = Run.done l1
      ∧ l1.f.outBatch = [] ∧ l1.f.fs = l.f.fs ∧ l1.f.conf = l.f.conf
      ∧ l1.f.includePaths = l.f.includePaths ∧ l1.f.panicked = l.f.panicked
      ∧ l1.f.shutDown = l.f.shutDown
      ∧ (l.f.conf.IncludeTypes = [] → l1.pluginType = [] ∧ l1.sect = Primitive.zero)
      ∧ ∃ new, l1.f.batchChan = l.f.batchChan ++ new
          ∧ new.map batchView
              = if ReplaceEnvsFile ext l.f.fs p ≠ [] then [(p, OK, ReplaceEnvsFile ext l.f.fs p)]
                else [] := by
  have hsel := selectSection_start (ext.decode (ReplaceEnvsFile ext l.f.fs p))
    l.f.conf.IncludeTypes l.pluginType l.sect hcur
  have hi := hinfo l.f.confInfo.ticker
  unfold fileInfo at hi
  obtain ⟨info, hinf⟩ := Option.isSome_iff_exists.mp hi
  have hcur1 : l.f.conf.IncludeTypes = [] →
      (selectSection (ext.decode (ReplaceEnvsFile ext l.f.fs p)) l.f.conf.IncludeTypes
          ([], Primitive.zero)).1 = []
      ∧ (selectSection (ext.decode (ReplaceEnvsFile ext l.f.fs p)) l.f.conf.IncludeTypes
          ([], Primitive.zero)).2 = Primitive.zero := by
    intro h
    rw [h, selectSection_nil]
    exact ⟨rfl, rfl⟩
  unfold sendFile getConfigFileInfo
  simp only
  rw [hsel, hinf]
  simp only
  unfold sendIfAny
  simp only [hbuf, List.nil_append]
  by_cases hc : ReplaceEnvsFile ext l.f.fs p = []
  · rw [if_neg (by simpa using hc), if_neg (by simpa using hc)]
    exact ⟨_, rfl, hc, rfl, rfl, rfl, rfl, rfl, hcur1, [], by simp, rfl⟩
  · rw [if_pos hc, if_pos hc]
    exact ⟨_, rfl, rfl, rfl, rfl, rfl, rfl, rfl, hcur1, [_], rfl, rfl⟩

theorem sendFiles_spec (ext : Externals) (fs0 : FS) (conf0 : CMFilterConfig) :
    ∀ (files : List Str) (l : Listing), l.f.outBatch = [] → l.f.fs = fs0 → l.f.conf = conf0 →
      (conf0.IncludeTypes = [] → l.pluginType = [] ∧ l.sect = Primitive.zero) →
      (∀ path ∈ files, HasSuffix path ".toml".toList = true →
        conf0.ExcludePaths.any (fun excludePath => HasPrefix path excludePath) = false →
        ∀ t : Int, (fileInfo ext fs0 conf0 path t).isSome = true) →
      ∃ l1, sendFiles ext files l = Run.done l1
        ∧ l1.f.outBatch = [] ∧ l1.f.fs = fs0 ∧ l1.f.conf = conf0
        ∧ l1.f.includePaths = l.f.includePaths ∧ l1.f.panicked = l.f.panicked
        ∧ l1.f.shutDown = l.f.shutDown
        ∧ ∃ new, l1.f.batchChan = l.f.batchChan ++ new
            ∧ new.map batchView
                = (files.filter (listed ext l.f)).map
                    (fun path => (path, OK, ReplaceEnvsFile ext fs0 path)) := by
  intro files
  induction files with
  | nil =>
    intro l h1 h2 h3 _ _
    exact ⟨l, rfl, h1, h2, h3, rfl, rfl, rfl, [], by simp, rfl⟩
  | cons p rest ih =>
    intro l h1 h2 h3 h4 hinfo
    have hrest : ∀ path ∈ rest, HasSuffix path ".toml".toList = true →
        conf0.ExcludePaths.any (fun excludePath => HasPrefix path excludePath) = false →
        ∀ t : Int, (fileInfo ext fs0 conf0 path t).isSome = true :=
      fun path hp => hinfo path (List.mem_cons_of_mem _ hp)
    have hl : ∀ (m : Listing), m.f.fs = fs0 → m.f.conf = conf0 → ∀ q,
        listed ext m.f q = listed ext l.f q := by
      intro m e1 e2 q
      unfold listed
      rw [e1, e2, h2, h3]
    unfold sendFiles
    split
    · rename_i hs
      have hnot : listed ext l.f p = false := by
        unfold listed; rw [hs]; rfl
      rw [List.filter_cons_of_neg (by simp [hnot])]
      exact ih l h1 h2 h3 h4 hrest
    · rename_i hs
      split
      · rename_i he
        have hnot : listed ext l.f p = false := by
          unfold listed; rw [he]; simp
        rw [List.filter_cons_of_neg (by simp [hnot])]
        exact ih l h1 h2 h3 h4 hrest
      · rename_i he
        have hsfx : HasSuffix p ".toml".toList = true := by simpa using hs
        have hex : (l.f.conf.ExcludePaths.any fun excludePath => HasPrefix p excludePath)
            = false := by simpa using he
        obtain ⟨l1, hl1, a1, a2, a3, a4, a7, a8, a9, new1, a5, a6⟩ :=
          sendFile_spec ext l p h1 (by rw [h3]; exact h4)
            (by rw [h2, h3]; exact hinfo p (List.mem_cons_self _ _) hsfx (by rw [← h3]; exact hex))
        rw [hl1]
        simp only
        obtain ⟨l2, hl2, b1, b2, b3, b4, b7, b8, new2, b5, b6⟩ := ih l1 a1 (a2.trans h2)
          (a3.trans h3) (by rw [h3] at a9; exact a9) hrest
        refine ⟨l2, hl2, b1, b2, b3, b4.trans a4, b7.trans a7, b8.trans a8, new1 ++ new2, ?_, ?_⟩
        · rw [b5, a5, List.append_assoc]
        · rw [List.map_append, a6, b6]
          have hl2 : List.filter (listed ext l1.f) rest
              = List.filter (listed ext l.f) rest := by
            congr 1
            funext q
            exact hl _ (a2.trans h2) (a3.trans h3) q
          rw [hl2, h2]
          by_cases hc : ReplaceEnvsFile ext fs0 p = []
          · have hnot : listed ext l.f p = false := by
              unfold listed; rw [h2, hc]; simp
            rw [List.filter_cons_of_neg (by simp [hnot]), if_neg (by simpa using hc)]
            rfl
          · have hyes : listed ext l.f p = true := by
              unfold listed; rw [h2, hsfx, hex]; simpa using hc
            rw [List.filter_cons_of_pos hyes, if_pos hc]
            rfl

theorem expectedListing_congr (ext : Externals) (f g : CMFilter) (roots : List Str)
    (h1 : g.fs = f.fs) (h2 : g.conf = f.conf) :
    expectedListing ext g roots = expectedListing ext f roots := by
  have hl : listed ext g = listed ext f := by
    funext q
    unfold listed
    rw [h1, h2]
  unfold expectedListing
  rw [h1, hl]

theorem expectedListing_cons (ext : Externals) (f : CMFilter) (root : Str) (rest : List Str) :
    expectedListing ext f (root :: rest)
      = ((f.fs.Walk root).filter (listed ext f)).map
          (fun path => (path, OK, ReplaceEnvsFile ext f.fs path))
        ++ expectedListing ext f rest := by
  unfold expectedListing
  simp [List.flatMap, List.filter_append]

theorem Listable_congr (ext : Externals) (f g : CMFilter) (roots : List Str)
    (h1 : g.fs = f.fs) (h2 : g.conf = f.conf) (h : Listable ext f roots) :
    Listable ext g roots := by
  unfold Listable
  rw [h1, h2]
  exact h

theorem find_of_stat_dir (fs : FS) (path : Str) (h : fs.stat path = some Node.dir) :
    fs.find path = Except.ok Node.dir := by
  unfold FS.stat at h
  split at h
  · rename_i n hn
    injection h with h
    rw [hn, h]
  · cases h

theorem returnLoop_spec (ext : Externals) :
    ∀ (roots : List Str) (f : CMFilter), f.outBatch = [] →
      (∀ root ∈ roots, f.fs.stat root = some Node.dir) →
      Listable ext f roots →
      ∃ f1, returnLoop ext roots f = Run.done f1
        ∧ f1.outBatch = [] ∧ f1.fs = f.fs ∧ f1.panicked = f.panicked
        ∧ f1.shutDown = f.shutDown
        ∧ ∃ new, f1.batchChan = f.batchChan ++ new
            ∧ new.map batchView = expectedListing ext f roots := by
  intro roots
  induction roots with
  | nil =>
    intro f h _ _
    exact ⟨f, rfl, h, rfl, rfl, rfl, [], by simp, rfl⟩
  | cons root rest ih =>
    intro f hbuf hroots hlist
    have hroot := find_of_stat_dir f.fs root (hroots root (List.mem_cons_self _ _))
    obtain ⟨l1, hl1, a1, a2, a3, _, a4, a7, new1, a5, a6⟩ :=
      sendFiles_spec ext f.fs f.conf (f.fs.Walk root)
        { f := f, pluginType := [], sect := Primitive.zero } hbuf rfl rfl
        (fun _ => ⟨rfl, rfl⟩) (hlist root (List.mem_cons_self _ _))
    have hsend : sendConfigContents ext f root = Run.done (l1.f, none) := by
      unfold sendConfigContents
      rw [hroot]
      simp only
      rw [hl1]
    obtain ⟨f2, hf2, b1, b2, b3, b4, new2, b5, b6⟩ := ih l1.f a1
      (by intro r hr; rw [a2]; exact hroots r (List.mem_cons_of_mem _ hr))
      (Listable_congr ext f l1.f rest a2 a3
        (fun r hr => hlist r (List.mem_cons_of_mem _ hr)))
    refine ⟨f2, ?_, b1, b2.trans a2, b3.trans a4, b4.trans a7, new1 ++ new2, ?_, ?_⟩
    · unfold returnLoop
      rw [hsend]
      exact hf2
    · rw [b5, a5, List.append_assoc]
    · rw [List.map_append, a6, b6, expectedListing_cons, expectedListing_congr ext f _ rest a2 a3]

/-- C7, amended: a return request processed by a live dispatcher with an empty
output buffer and no result bytes left by an earlier request, all managed roots
being existing directories, and every file read below them (each walked path
that ends in `.toml` and has no exclude path as prefix) being one for which
`getConfigFileInfo` finds a plugin maker. The run does not panic, and the
batches sent are, in the order of the walks of the roots, one for each walked
path that ends in `.toml`, has no exclude path as prefix and has contents,
after environment substitution, that are not empty (a path walked from two
nested roots counts once for each), and no other batch; each has status `OK`,
the path as file name and the contents as payload. The filesystem is left as
it was. -/
theorem return_lists_configs (ext : Externals) (s : Sender) (pack : MsgPack)
    (hlive : s.f.panicked = false)
    (hact : GetFieldValue pack.Message.Fields "Action".toList
      = some (FieldValue.string "return".toList))
    (hbuf : s.f.outBatch = []) (hout : s.outBytes = [])
    (hroots : ∀ root ∈ s.f.includePaths, s.f.fs.stat root = some Node.dir)
    (hlist : Listable ext s.f s.f.includePaths) :
    (batchSenderStep ext s pack).f.panicked = false
    ∧ (batchSenderStep ext s pack).f.fs = s.f.fs
    ∧ ∃ new, (batchSenderStep ext s pack).f.batchChan = s.f.batchChan ++ new
        ∧ new.map batchView = expectedListing ext s.f s.f.includePaths := by
  have hsw : switchAction ext
      { s.f with msgLoopCount := pack.MsgLoopCount, confInfo := freshInfo } s.outBytes pack
      = returnBranch ext
      { s.f with msgLoopCount := pack.MsgLoopCount, confInfo := freshInfo } s.outBytes pack := by
    unfold switchAction
    rw [hact]
    simp only
    rw [if_neg (by decide), if_neg (by decide)]
    simp
  obtain ⟨f1, hf1, a1, a2, a5, _, new, a3, a4⟩ := returnLoop_spec ext s.f.includePaths
    { s.f with msgLoopCount := pack.MsgLoopCount, confInfo := freshInfo,
               queueCursor := pack.queueCursor } hbuf hroots
    (Listable_congr ext s.f _ _ rfl rfl hlist)
  have hrb : returnBranch ext
      { s.f with msgLoopCount := pack.MsgLoopCount, confInfo := freshInfo } s.outBytes pack
      = Run.done (f1, s.outBytes) := by
    unfold returnBranch
    simp only
    rw [hf1]
  unfold batchSenderStep
  rw [if_neg (by rw [hlive]; decide)]
  simp only
  rw [hsw, hrb]
  unfold sendIfAny
  simp only [hout, List.append_nil]
  rw [if_neg (by simpa using a1)]
  refine ⟨a5.trans hlive, a2, new, a3, ?_⟩
  rw [a4]
  exact expectedListing_congr ext s.f _ _ rfl rfl

theorem listSender_fileInfo (path : Str) (t : Int) :
    (fileInfo demoExt listSender.f.fs listSender.f.conf path t).isSome
      = (fileInfo demoExt listSender.f.fs listSender.f.conf path 0).isSome := by
  unfold fileInfo
  exact sectionInfo_isSome demoExt t 0 _ _

/-- C7, amended, on a tree with three configuration files, each with a section
named after its plugin type, and one more file below an exclude path: exactly
three batches, none for the excluded file. -/
theorem return_lists_configs_witness :
    (batchSenderStep demoExt listSender (demoPack "return".toList [] [])).f.panicked = false
    ∧ (batchSenderStep demoExt listSender (demoPack "return".toList [] [])).f.fs
        = listSender.f.fs
    ∧ ∃ new, (batchSenderStep demoExt listSender (demoPack "return".toList [] [])).f.batchChan
          = listSender.f.batchChan ++ new
        ∧ new.map batchView
          = [("/cfg/proc/30/p.toml".toList, OK, "[ProcessInput]\nticker_interval = 30".toList),
             ("/cfg/logs/a.toml".toList, OK, "[LogstreamerInput]\nx = 1".toList),
             ("/cfg/http/h.toml".toList, OK, "[HttpInput]".toList)] := by
  have hl : Listable demoExt listSender.f listSender.f.includePaths := by
    have h0 : ∀ root ∈ listSender.f.includePaths, ∀ path ∈ listSender.f.fs.Walk root,
        HasSuffix path ".toml".toList = true →
        listSender.f.conf.ExcludePaths.any (fun excludePath => HasPrefix path excludePath)
          = false →
        (fileInfo demoExt listSender.f.fs listSender.f.conf path 0).isSome = true := by
      decide
    intro root hroot path hpath h1 h2 t
    rw [listSender_fileInfo]
    exact h0 root hroot path hpath h1 h2
  have h := return_lists_configs demoExt listSender (demoPack "return".toList [] [])
    (by decide) (by decide) rfl rfl (by decide) hl
  have e : expectedListing demoExt listSender.f listSender.f.includePaths
      = [("/cfg/proc/30/p.toml".toList, OK, "[ProcessInput]\nticker_interval = 30".toList),
         ("/cfg/logs/a.toml".toList, OK, "[LogstreamerInput]\nx = 1".toList),
         ("/cfg/http/h.toml".toList, OK, "[HttpInput]".toList)] := by decide
  rw [e] at h
  exact h

/-! ## Concrete runs -/

/-- C1: a delete request for `/etc/passwd`, an existing file under none of the
four managed roots and under no exclude path. `checkPath` answers `ok = false`
without an error, `removeConfig` looks at the error only: the file is removed
and the batch has status `OK`. -/
theorem delete_outside_roots_removes :
    checkPath (demoFilter [] [demoFile "/etc/passwd" "root"]) "/etc/passwd".toList = (false, none)
    ∧ (demoFilter [] [demoFile "/etc/passwd" "root"]).fs.stat "/etc/passwd".toList
        = some (Node.file "root".toList)
    ∧ (batchSenderStep demoExt ⟨demoFilter [] [demoFile "/etc/passwd" "root"], []⟩
        (demoDelete "/etc/passwd")).f.fs.stat "/etc/passwd".toList = none
    ∧ statuses (batchSenderStep demoExt ⟨demoFilter [] [demoFile "/etc/passwd" "root"], []⟩
        (demoDelete "/etc/passwd")) = [OK] := by
  decide

/-- C2, as stated, fails in both directions. The raw path
`/cfg/proc/../../etc/passwd` starts with the process root, so `checkPath`
permits it, while its cleaned form `/etc/passwd` starts with no cleaned root.
And with the process root configured as `/cfg/proc/`, the path `/cfg/proc` is
not permitted by `checkPath`, while on cleaned paths the root is a prefix of
it. -/
theorem checkPath_not_on_cleaned_paths :
    checkPath (demoFilter [] []) "/cfg/proc/../../etc/passwd".toList = (true, none)
    ∧ permitsCleaned (demoFilter [] []) "/cfg/proc/../../etc/passwd".toList = false
    ∧ checkPath slashFilter "/cfg/proc".toList = (false, none)
    ∧ permitsCleaned slashFilter "/cfg/proc".toList = true := by
  decide

/-- C3, as stated, fails: the log-stream directory holds `a.toml`, which
declares the section `l` of the payload with the same ticker; overwrite is not
requested. The call of `addConfig` for `l` refuses, the call for the second
eligible section `m` finds no duplicate of `m` and creates a file; the status
stays `ERROR`. -/
theorem add_duplicate_of_one_section_writes :
    (demoFilter [] [demoFile "/cfg/logs/a.toml" "[l]\ntype = \"LogstreamerInput\"\nx = 1"]).fs.stat
        "/cfg/logs/heka00000000000000000000000000000000.toml".toList = none
    ∧ (batchSenderStep demoExt
        ⟨demoFilter [] [demoFile "/cfg/logs/a.toml" "[l]\ntype = \"LogstreamerInput\"\nx = 1"], []⟩
        (demoPack "add".toList [] twoSections.toList)).f.fs.stat
        "/cfg/logs/heka00000000000000000000000000000000.toml".toList
        = some (Node.file twoSections.toList)
    ∧ statuses (batchSenderStep demoExt
        ⟨demoFilter [] [demoFile "/cfg/logs/a.toml" "[l]\ntype = \"LogstreamerInput\"\nx = 1"], []⟩
        (demoPack "add".toList [] twoSections.toList)) = [ERROR] := by
  decide

/-- C4: an add request with overwrite for the section `l`; the log-stream
directory holds the duplicate `a.toml` (same name and ticker) and the sibling
`b.toml`, which declares another section. The variable `dup` is never reset,
so `b.toml` is taken for a duplicate too: the payload is written to `b.toml`
and `a.toml` keeps its old contents. -/
theorem overwrite_hits_sibling :
    (batchSenderStep demoExt
        ⟨demoFilter [] [demoFile "/cfg/logs/a.toml" "[l]\ntype = \"LogstreamerInput\"\nx = 1",
          demoFile "/cfg/logs/b.toml" "[other]\ntype = \"LogstreamerInput\""], []⟩
        (demoPack "add".toList [("Overwrite".toList, FieldValue.string "true".toList)]
          "[l]\ntype = \"LogstreamerInput\"\nx = 2".toList)).f.fs.entries
      = demoDirs ++ [demoFile "/cfg/logs/a.toml" "[l]\ntype = \"LogstreamerInput\"\nx = 1",
          demoFile "/cfg/logs/b.toml" "[l]\ntype = \"LogstreamerInput\"\nx = 2"] := by
  decide

/-- C5: a delete request for the process root `/cfg/proc` itself, an empty
directory. The descriptor is fresh, its type is empty, so the directory guard
of `removeConfig` is skipped: the root is removed and the batch has status
`OK`. -/
theorem delete_process_root_removes :
    (demoFilter [] []).fs.stat "/cfg/proc".toList = some Node.dir
    ∧ (batchSenderStep demoExt ⟨demoFilter [] [], []⟩ (demoDelete "/cfg/proc")).f.fs.stat
        "/cfg/proc".toList = none
    ∧ statuses (batchSenderStep demoExt ⟨demoFilter [] [], []⟩ (demoDelete "/cfg/proc")) = [OK] := by
  decide

/-- C6: a request with the action `remove`. The fixed payload is sent, and
the status of the batch is `OK`: the default branch does not set it. -/
theorem unrecognized_action_status_ok :
    payloads (batchSenderStep demoExt ⟨demoFilter [] [], []⟩ (demoPack "remove".toList [] []))
      = [unrecognizedMessage]
    ∧ statuses (batchSenderStep demoExt ⟨demoFilter [] [], []⟩ (demoPack "remove".toList [] []))
      = [OK] := by
  decide

/-- C7, as stated, fails: the process root `/cfg/processes` does not exist;
`/cfg/logs/a.toml` is an entry under the log-stream root, ends in `.toml`, is
under no exclude path, is not empty and declares a section of a registered
type. The return request fails to open the first root, calls `ShutDown` and
leaves the loop over the roots: no batch is sent for the file. -/
theorem return_stops_at_missing_root :
    gapSender.f.includePaths
        = ["/cfg/processes".toList, "/cfg/logs".toList, "/cfg/http".toList, "/cfg/files".toList]
    ∧ gapSender.f.fs.stat "/cfg/processes".toList = none
    ∧ "/cfg/logs/a.toml".toList ∈ gapSender.f.fs.Walk "/cfg/logs".toList
    ∧ listed demoExt gapSender.f "/cfg/logs/a.toml".toList = true
    ∧ (fileInfo demoExt gapSender.f.fs gapSender.f.conf "/cfg/logs/a.toml".toList
        PROCESSINPUT_TICKER).isSome = true
    ∧ (batchSenderStep demoExt gapSender (demoPack "return".toList [] [])).f.batchChan = []
    ∧ (batchSenderStep demoExt gapSender (demoPack "return".toList [] [])).f.shutDown = true
    ∧ (batchSenderStep demoExt gapSender (demoPack "return".toList [] [])).f.panicked = false := by
  decide

/-- C8: a call of `addConfig` for a section `l` of the allowed type
`LogstreamerInput`. The target directory `/cfg/logs` holds one file, `x.toml`,
which is no duplicate: it differs from the payload and declares no section
`l`. The generated name is free and a write to it succeeds. But `x.toml`
declares a section `foo` of a type that is not registered: `NewPluginMaker`
returns a nil maker, `getConfigFileInfo` drops the error and calls
`maker.Type()`, and the call panics in the duplicate check, before the write.
No file is created; in the dispatcher the request ends in a panic and no batch
is sent. -/
theorem addConfig_panics_on_unregistered_sibling :
    strayInfo.confType ∈ strayFilter.conf.IncludeTypes
    ∧ addDir strayFilter.conf strayInfo.confType strayInfo.ticker = some "/cfg/logs".toList
    ∧ strayFilter.fs.ReadDir "/cfg/logs".toList = ["x.toml".toList]
    ∧ isDuplicate demoExt strayFilter.fs strayFilter.confInfo.ticker strayInfo.confName
        strayInfo.ticker strayPayload "/cfg/logs/x.toml".toList = false
    ∧ strayFilter.fs.stat "/cfg/logs/heka00000000000000000000000000000000.toml".toList = none
    ∧ (strayFilter.fs.WriteFile "/cfg/logs/heka00000000000000000000000000000000.toml".toList
        strayPayload).toBool = true
    ∧ demoExt.NewPluginMaker "foo".toList (Primitive.table "x = 1\n".toList) = none
    ∧ (addConfig demoExt strayFilter strayPayload strayInfo).isPanic = true
    ∧ (Run.world Prod.fst (addConfig demoExt strayFilter strayPayload strayInfo)).fs
        = strayFilter.fs
    ∧ (batchSenderStep demoExt ⟨demoFilter [] [demoFile "/cfg/logs/x.toml" "[foo]\nx = 1"], []⟩
        (demoPack "add".toList [] strayPayload)).f.panicked = true
    ∧ (batchSenderStep demoExt ⟨demoFilter [] [demoFile "/cfg/logs/x.toml" "[foo]\nx = 1"], []⟩
        (demoPack "add".toList [] strayPayload)).f.fs
        = (demoFilter [] [demoFile "/cfg/logs/x.toml" "[foo]\nx = 1"]).fs
    ∧ (batchSenderStep demoExt ⟨demoFilter [] [demoFile "/cfg/logs/x.toml" "[foo]\nx = 1"], []⟩
        (demoPack "add".toList [] strayPayload)).f.batchChan = [] := by
  decide

/-- C10: the same return request on the same filter and filesystem, once with
`outBytes` empty and once with the result of an earlier request left in it.
The first run sends nothing, the second sends the earlier result again. And in
the run of an unrecognized request followed by a return request, the second
batch repeats the payload of the first. -/
theorem return_resends_previous_result :
    payloads (batchSenderStep demoExt ⟨demoFilter [] [], []⟩ (demoPack "return".toList [] [])) = []
    ∧ payloads (batchSenderStep demoExt ⟨demoFilter [] [], "Successfully deleted file: /x".toList⟩
        (demoPack "return".toList [] [])) = ["Successfully deleted file: /x".toList]
    ∧ payloads (batchSender demoExt (demoFilter [] [])
        [demoPack "remove".toList [] [], demoPack "return".toList [] []])
      = [unrecognizedMessage, unrecognizedMessage] := by
  decide

end CM
